import Mathlib

/-!
Shallow embedding of the SunSynk battery-monitoring pipeline
(`src/validators/site_validator.py`, `src/core/analyzer.py`,
`src/core/fetcher.py`, `src/api/sunsynk.py`) and verification of the
frozen claims about it.

Modelling conventions:
* Python `dict`s are insertion-ordered association lists
  (`List (String × α)`); `dictInsert` mirrors `d[k] = v`
  (overwrite in place, append when fresh) and `dictGet?` mirrors `d[k]`
  together with `k in d`.
* String-encoded floats in telemetry records are modelled as `Rat`
  (a record carries `value : Option Rat`, `none` meaning the field is
  missing or fails to parse with `float(...)`).
* Fallible Python code (exceptions, `None` returns) is modelled with
  `Option`.
* Network effects are modelled with explicit oracles (one outcome per
  call) and an event trace (`Ev`) recording, in program order, the
  rate-limiter acquisitions, HTTP requests, and sleeps the code performs.
-/

namespace SunSynk

/-- Ordered-dict write `d[k] = v`: overwrite the value in place when the
key is present, append otherwise (CPython dict semantics). -/
def dictInsert (d : List (String × α)) (k : String) (v : α) : List (String × α) :=
  if d.any (fun p => p.1 == k) then
    d.map (fun p => if p.1 == k then (k, v) else p)
  else
    d ++ [(k, v)]

/-- Ordered-dict read `d[k]` / membership test `k in d`. -/
def dictGet? (d : List (String × α)) (k : String) : Option α :=
  (d.find? (fun p => p.1 == k)).map (fun p => p.2)

theorem dictInsert_of_not_mem (d : List (String × α)) (k : String) (v : α)
    (h : ∀ p ∈ d, p.1 ≠ k) : dictInsert d k v = d ++ [(k, v)] := by
  have hc : d.any (fun p => p.1 == k) = false := by
    simp only [List.any_eq_false, beq_iff_eq]
    exact h
  simp [dictInsert, hc]

theorem dictGet?_nil (k : String) : dictGet? ([] : List (String × α)) k = none := rfl

theorem dictGet?_cons_self (k : String) (v : α) (d : List (String × α)) :
    dictGet? ((k, v) :: d) k = some v := by
  simp [dictGet?]

theorem dictGet?_cons_ne (k k' : String) (v : α) (d : List (String × α)) (h : k' ≠ k) :
    dictGet? ((k', v) :: d) k = dictGet? d k := by
  have hb : ¬ ((fun p => p.1 == k) ((k', v) : String × α)) = true := by simpa using h
  unfold dictGet?
  rw [List.find?_cons_of_neg (p := fun p => p.1 == k) (a := ((k', v) : String × α)) _ hb]

theorem dictGet?_map_overwrite (d : List (String × α)) (k k' : String) (v : α)
    (h : k' ≠ k) :
    dictGet? (d.map (fun p => if p.1 == k' then (k', v) else p)) k = dictGet? d k := by
  induction d with
  | nil => rfl
  | cons p t ih =>
    by_cases hp : p.1 = k'
    · have hpe : (p.1 == k') = true := by simpa using hp
      have hpk : p.1 ≠ k := by rw [hp]; exact h
      simp only [List.map_cons, hpe, if_true]
      rw [dictGet?_cons_ne _ _ _ _ h, dictGet?_cons_ne _ _ _ _ hpk]
      exact ih
    · have hpe : (p.1 == k') = false := by simpa using hp
      simp only [List.map_cons, hpe, Bool.false_eq_true, if_false]
      by_cases hk : p.1 = k
      · rcases p with ⟨pk, pv⟩
        simp only at hk
        subst hk
        rw [dictGet?_cons_self, dictGet?_cons_self]
      · rw [dictGet?_cons_ne _ _ _ _ hk, dictGet?_cons_ne _ _ _ _ hk]
        exact ih

theorem dictGet?_append_single_ne (d : List (String × α)) (k k' : String) (v : α)
    (h : k' ≠ k) : dictGet? (d ++ [(k', v)]) k = dictGet? d k := by
  induction d with
  | nil =>
    simp only [List.nil_append]
    rw [dictGet?_cons_ne _ _ _ _ h]
  | cons p t ih =>
    by_cases hk : p.1 = k
    · rcases p with ⟨pk, pv⟩
      simp only at hk
      subst hk
      rw [List.cons_append, dictGet?_cons_self, dictGet?_cons_self]
    · rw [List.cons_append, dictGet?_cons_ne _ _ _ _ hk, dictGet?_cons_ne _ _ _ _ hk]
      exact ih

theorem dictGet?_dictInsert_ne (d : List (String × α)) (k k' : String) (v : α)
    (h : k' ≠ k) : dictGet? (dictInsert d k' v) k = dictGet? d k := by
  unfold dictInsert
  by_cases hc : d.any (fun p => p.1 == k') = true
  · rw [if_pos hc]; exact dictGet?_map_overwrite d k k' v h
  · rw [if_neg hc]; exact dictGet?_append_single_ne d k k' v h

theorem dictGet?_dictInsert_self (d : List (String × α)) (k : String) (v : α) :
    dictGet? (dictInsert d k v) k = some v := by
  unfold dictInsert
  by_cases hc : d.any (fun p => p.1 == k) = true
  · rw [if_pos hc]
    simp only [List.any_eq_true, beq_iff_eq] at hc
    induction d with
    | nil => simp at hc
    | cons p t ih =>
      by_cases hp : p.1 = k
      · have hpe : (p.1 == k) = true := by simpa using hp
        simp only [List.map_cons, hpe, if_true]
        rw [dictGet?_cons_self]
      · have hpe : (p.1 == k) = false := by simpa using hp
        simp only [List.map_cons, hpe, Bool.false_eq_true, if_false]
        rw [dictGet?_cons_ne _ _ _ _ hp]
        apply ih
        rcases hc with ⟨q, hq, hqk⟩
        rcases List.mem_cons.mp hq with rfl | hqt
        · exact absurd hqk hp
        · exact ⟨q, hqt, hqk⟩
  · rw [if_neg hc]
    simp only [List.any_eq_true, beq_iff_eq, not_exists, not_and] at hc
    induction d with
    | nil =>
      simp only [List.nil_append]
      rw [dictGet?_cons_self]
    | cons p t ih =>
      have hp : p.1 ≠ k := hc p (by simp)
      rw [List.cons_append, dictGet?_cons_ne _ _ _ _ hp]
      exact ih (fun q hq => hc q (by simp [hq]))

/-- A `find?` hit is the first index satisfying the predicate. -/
theorem find?_eq_get_of_first (p : α → Bool) :
    ∀ (l : List α) (i : Fin l.length),
      p (l.get i) = true →
      (∀ j : Fin l.length, j.1 < i.1 → p (l.get j) = false) →
      l.find? p = some (l.get i)
  | a :: t, ⟨0, _⟩, hp, _ => by
    simpa using List.find?_cons_of_pos (p := p) t hp
  | a :: t, ⟨n + 1, hn⟩, hp, hmin => by
    have ha : p a = false := hmin ⟨0, Nat.succ_pos _⟩ (Nat.succ_pos _)
    rw [List.find?_cons_of_neg _ (by simp [ha])]
    exact find?_eq_get_of_first p t ⟨n, Nat.lt_of_succ_lt_succ hn⟩ hp
      (fun j hj => hmin ⟨j.1 + 1, Nat.succ_lt_succ j.2⟩ (Nat.succ_lt_succ hj))

/-- Folding dict writes with pairwise-distinct fresh keys appends the
corresponding entries in order. -/
theorem foldl_insert_eq_map (key : α → String) (g : α → β) :
    ∀ (l : List α) (res : List (String × β)),
      (∀ x ∈ l, ∀ p ∈ res, p.1 ≠ key x) →
      (l.map key).Nodup →
      l.foldl (fun r x => dictInsert r (key x) (g x)) res
        = res ++ l.map (fun x => (key x, g x))
  | [], res, _, _ => by simp
  | x :: t, res, hdisj, hnodup => by
    rw [List.foldl_cons,
      dictInsert_of_not_mem _ _ _ (fun p hp => hdisj x (by simp) p hp),
      foldl_insert_eq_map key g t (res ++ [(key x, g x)])
        (fun y hy p hp => by
          rcases List.mem_append.mp hp with h1 | h2
          · exact hdisj y (List.mem_cons_of_mem _ hy) p h1
          · have hpx : p = (key x, g x) := by simpa using h2
            subst hpx
            have hnm : key x ∉ t.map key := (List.nodup_cons.mp hnodup).1
            intro hcontra
            have hxy : key x = key y := hcontra
            exact hnm (hxy ▸ List.mem_map_of_mem key hy))
        (List.nodup_cons.mp hnodup).2]
    simp

/-- `Option`-valued variant: a fold whose step skips `none`-payload
entries and dict-inserts `some`-payload ones behaves as a `filterMap`
append (the step `g` is a parameter so callers can keep their own
syntactic shape). -/
theorem foldl_insertOpt_eq_filterMap (key : α → String) (f : α → Option β)
    (g : List (String × β) → α → List (String × β))
    (hg : ∀ r x, g r x = (f x).elim r (fun b => dictInsert r (key x) b)) :
    ∀ (l : List α) (res : List (String × β)),
      (∀ x ∈ l, ∀ p ∈ res, p.1 ≠ key x) →
      (l.map key).Nodup →
      l.foldl g res = res ++ l.filterMap (fun x => (f x).map (fun b => (key x, b)))
  | [], res, _, _ => by simp
  | x :: t, res, hdisj, hnodup => by
    rw [List.foldl_cons, hg]
    cases hfx : f x with
    | none =>
      rw [Option.elim_none]
      rw [foldl_insertOpt_eq_filterMap key f g hg t res
        (fun y hy p hp => hdisj y (List.mem_cons_of_mem _ hy) p hp)
        (List.nodup_cons.mp hnodup).2]
      simp [List.filterMap_cons, hfx]
    | some b =>
      rw [Option.elim_some]
      rw [dictInsert_of_not_mem _ _ _ (fun p hp => hdisj x (by simp) p hp),
        foldl_insertOpt_eq_filterMap key f g hg t (res ++ [(key x, b)])
          (fun y hy p hp => by
            rcases List.mem_append.mp hp with h1 | h2
            · exact hdisj y (List.mem_cons_of_mem _ hy) p h1
            · have hpx : p = (key x, b) := by simpa using h2
              subst hpx
              have hnm : key x ∉ t.map key := (List.nodup_cons.mp hnodup).1
              intro hcontra
              have hxy : key x = key y := hcontra
              exact hnm (hxy ▸ List.mem_map_of_mem key hy))
          (List.nodup_cons.mp hnodup).2]
      simp [List.filterMap_cons, hfx]

/-- Reading a key in a dict built by mapping over a key-Nodup list
yields that element's payload. -/
theorem dictGet?_map_of_nodup (key : α → String) (g : α → β) :
    ∀ (l : List α), (l.map key).Nodup → ∀ x ∈ l,
      dictGet? (l.map (fun y => (key y, g y))) (key x) = some (g x)
  | [], _, x, hx => absurd hx (List.not_mem_nil x)
  | y :: t, hnodup, x, hx => by
    rcases List.mem_cons.mp hx with rfl | hxt
    · simp only [List.map_cons]
      rw [dictGet?_cons_self]
    · have hne : key y ≠ key x := by
        intro hc
        exact (List.nodup_cons.mp hnodup).1 (hc ▸ List.mem_map_of_mem key hxt)
      simp only [List.map_cons]
      rw [dictGet?_cons_ne _ _ _ _ hne]
      exact dictGet?_map_of_nodup key g t (List.nodup_cons.mp hnodup).2 x hxt

/-! ## Site validator (`src/validators/site_validator.py`) -/

/-- One entry of the static `sla_sites` configuration list; both fields
already passed through `str(...)` as in the source. -/
structure ConfigSite where
  name : String
  site_id : String
deriving Repr, DecidableEq

/-- The live-fleet data for one site: its id (post-`str`) and, when the
`'inverters'` key is present, the serial → optional-`equipMode` roster
in its natural iteration order. -/
structure SiteData where
  id : String
  inverters : Option (List (String × Option String)) := none
deriving Repr, DecidableEq

/-- `SiteValidation` dataclass with its source-code defaults
(`exists` is a Lean keyword, hence the trailing underscore). -/
structure SiteValidation where
  exists_ : Bool := false
  id_matches : Bool := false
  has_inverters : Bool := false
  status : String := "invalid"
  inverter_sn : Option String := none
  inverter_type : Option String := none
  site_id : Option String := none
deriving Repr, DecidableEq

/-- `inv_type in ['M', 'M1'] or inv_type is None`. -/
def eligibleType (t : Option String) : Bool :=
  t == some "M" || t == some "M1" || t == none

/-- The `site_id → {'name': …, 'data': …}` index built at the top of
`validate_sites` (dict comprehension: later duplicate ids overwrite). -/
def buildSiteIdMap (allSites : List (String × SiteData)) :
    List (String × (String × SiteData)) :=
  allSites.foldl (fun m p => dictInsert m p.2.id (p.1, p.2)) []

/-- The inverter selected by the roster scan (`None` when the loop ran
off the end without a `break`): the all-false-except-exists validation,
or the fully populated valid one. -/
def pickInverter (site : ConfigSite) : Option (String × Option String) → SiteValidation
  | none => { exists_ := true, id_matches := true, site_id := some site.site_id }
  | some q =>
    { exists_ := true, id_matches := true, has_inverters := true,
      status := "valid", inverter_sn := some q.1,
      inverter_type := some (q.2.getD "M"), site_id := some site.site_id }

/-- The found-site half of the `validate_sites` loop body: if the
`'inverters'` key is present, scan the roster in its natural iteration
order for the first eligible inverter. -/
def validateRoster (site : ConfigSite) : Option (List (String × Option String)) → SiteValidation
  | none => { exists_ := true, id_matches := true, site_id := some site.site_id }
  | some roster => pickInverter site (roster.find? (fun q => eligibleType q.2))

/-- The per-site body of the `validate_sites` loop applied to the result
of the id lookup (by id, not name). -/
def validateHit (site : ConfigSite) : Option (String × SiteData) → SiteValidation
  | none => { site_id := some site.site_id }
  | some p => validateRoster site p.2.inverters

/-- The per-site body of the `validate_sites` loop. -/
def validateOne (m : List (String × (String × SiteData))) (site : ConfigSite) :
    SiteValidation :=
  validateHit site (dictGet? m site.site_id)

/-- `SiteValidator.validate_sites`: one `SiteValidation` per configured
site, keyed by configured name. -/
def validate_sites (cfg : List ConfigSite) (allSites : List (String × SiteData)) :
    List (String × SiteValidation) :=
  cfg.foldl (fun r s => dictInsert r s.name (validateOne (buildSiteIdMap allSites) s)) []

theorem validate_sites_eq_map (cfg : List ConfigSite) (allSites : List (String × SiteData))
    (h : (cfg.map ConfigSite.name).Nodup) :
    validate_sites cfg allSites
      = cfg.map (fun s => (s.name, validateOne (buildSiteIdMap allSites) s)) := by
  unfold validate_sites
  simpa using foldl_insert_eq_map ConfigSite.name
    (validateOne (buildSiteIdMap allSites)) cfg [] (by simp) h

/-- The id index misses a configured id exactly when no live site
carries that id. -/
theorem buildSiteIdMap_none_iff (allSites : List (String × SiteData)) (sid : String) :
    dictGet? (buildSiteIdMap allSites) sid = none ↔ ∀ q ∈ allSites, q.2.id ≠ sid := by
  unfold buildSiteIdMap
  suffices h : ∀ (l : List (String × SiteData)) (acc : List (String × (String × SiteData))),
      dictGet? (l.foldl (fun m p => dictInsert m p.2.id (p.1, p.2)) acc) sid = none
        ↔ (dictGet? acc sid = none ∧ ∀ q ∈ l, q.2.id ≠ sid) by
    rw [h allSites []]
    simp [dictGet?_nil]
  intro l
  induction l with
  | nil => simp
  | cons p t ih =>
    intro acc
    rw [List.foldl_cons, ih]
    by_cases hp : p.2.id = sid
    · constructor
      · rintro ⟨h1, _⟩
        rw [hp, dictGet?_dictInsert_self] at h1
        simp at h1
      · rintro ⟨_, h2⟩
        exact absurd hp (h2 p (by simp))
    · rw [dictGet?_dictInsert_ne _ _ _ _ hp]
      constructor
      · rintro ⟨h1, h2⟩
        refine ⟨h1, fun q hq => ?_⟩
        rcases List.mem_cons.mp hq with rfl | hqt
        · exact hp
        · exact h2 q hqt
      · rintro ⟨h1, h2⟩
        exact ⟨h1, fun q hq => h2 q (List.mem_cons_of_mem _ hq)⟩

theorem pickInverter_site_id (site : ConfigSite) (o : Option (String × Option String)) :
    (pickInverter site o).site_id = some site.site_id := by
  cases o <;> rfl

theorem validateRoster_no_eligible (site : ConfigSite)
    (roster : List (String × Option String))
    (hall : ∀ q ∈ roster, eligibleType q.2 = false) :
    validateRoster site (some roster)
      = { exists_ := true, id_matches := true, site_id := some site.site_id } := by
  show pickInverter site (roster.find? (fun q => eligibleType q.2)) = _
  rw [List.find?_eq_none.mpr (fun q hq => by simp [hall q hq])]
  rfl

theorem validateRoster_first_eligible (site : ConfigSite)
    (roster : List (String × Option String)) (i : Fin roster.length)
    (hi : eligibleType (roster.get i).2 = true)
    (hmin : ∀ j : Fin roster.length, j.1 < i.1 → eligibleType (roster.get j).2 = false) :
    validateRoster site (some roster)
      = { exists_ := true, id_matches := true, has_inverters := true,
          status := "valid", inverter_sn := some (roster.get i).1,
          inverter_type := some ((roster.get i).2.getD "M"),
          site_id := some site.site_id } := by
  show pickInverter site (roster.find? (fun q => eligibleType q.2)) = _
  rw [find?_eq_get_of_first (fun q => eligibleType q.2) roster i hi hmin]
  rfl

theorem validateOne_of_none (m : List (String × (String × SiteData))) (site : ConfigSite)
    (h : dictGet? m site.site_id = none) :
    validateOne m site = { site_id := some site.site_id } := by
  unfold validateOne
  rw [h]
  rfl

theorem validateOne_of_some (m : List (String × (String × SiteData))) (site : ConfigSite)
    (p : String × SiteData) (h : dictGet? m site.site_id = some p) :
    validateOne m site = validateRoster site p.2.inverters := by
  unfold validateOne
  rw [h]
  rfl

/-- A validation can only carry `status = "valid"` via the eligible-roster
branch, which also sets all three booleans and both inverter fields. -/
theorem validateOne_valid_fields (m : List (String × (String × SiteData)))
    (site : ConfigSite) (h : (validateOne m site).status = "valid") :
    (validateOne m site).exists_ = true ∧ (validateOne m site).id_matches = true ∧
    (validateOne m site).has_inverters = true ∧
    (validateOne m site).inverter_sn.isSome = true ∧
    (validateOne m site).inverter_type.isSome = true := by
  cases hm : dictGet? m site.site_id with
  | none =>
    rw [validateOne_of_none _ _ hm] at h
    have h2 : ("invalid" : String) = "valid" := h
    exact absurd h2 (by decide)
  | some p =>
    rw [validateOne_of_some _ _ _ hm] at h ⊢
    cases hinv : p.2.inverters with
    | none =>
      rw [hinv] at h
      have h2 : ("invalid" : String) = "valid" := h
      exact absurd h2 (by decide)
    | some roster =>
      rw [hinv] at h
      have hv : validateRoster site (some roster)
          = pickInverter site (roster.find? (fun q => eligibleType q.2)) := rfl
      rw [hv] at h ⊢
      cases hf : roster.find? (fun q => eligibleType q.2) with
      | none =>
        rw [hf] at h
        have h2 : ("invalid" : String) = "valid" := h
        exact absurd h2 (by decide)
      | some q =>
        exact ⟨rfl, rfl, rfl, rfl, rfl⟩

/-- C1: for every configured site and live snapshot, `validate_sites`
keys the result by configured name; if the site's id is absent from the
snapshot the validation is the all-false invalid default; if present,
`exists` and `id_matches` are set, the roster is scanned in its natural
iteration order and the first inverter of type `M`, `M1` or unset is
recorded (type defaulting to `M`) with status `valid`; with no
qualifying roster entry (or no roster key at all) the status stays
`invalid` even though the site exists. -/
theorem C1_validate_sites_selection
    (cfg : List ConfigSite) (allSites : List (String × SiteData))
    (hnodup : (cfg.map ConfigSite.name).Nodup)
    (site : ConfigSite) (hmem : site ∈ cfg) :
    ∃ v : SiteValidation,
      dictGet? (validate_sites cfg allSites) site.name = some v ∧
      v.site_id = some site.site_id ∧
      (dictGet? (buildSiteIdMap allSites) site.site_id = none ↔
        ∀ q ∈ allSites, q.2.id ≠ site.site_id) ∧
      (dictGet? (buildSiteIdMap allSites) site.site_id = none →
        v.status = "invalid" ∧ v.exists_ = false ∧ v.id_matches = false ∧
        v.has_inverters = false) ∧
      (∀ nm sd, dictGet? (buildSiteIdMap allSites) site.site_id = some (nm, sd) →
        v.exists_ = true ∧ v.id_matches = true ∧
        (sd.inverters = none → v.status = "invalid" ∧ v.has_inverters = false) ∧
        (∀ roster, sd.inverters = some roster →
          ((∀ q ∈ roster, eligibleType q.2 = false) →
            v.status = "invalid" ∧ v.has_inverters = false) ∧
          (∀ i : Fin roster.length,
            eligibleType (roster.get i).2 = true →
            (∀ j : Fin roster.length, j.1 < i.1 → eligibleType (roster.get j).2 = false) →
            v.has_inverters = true ∧ v.status = "valid" ∧
            v.inverter_sn = some (roster.get i).1 ∧
            v.inverter_type = some ((roster.get i).2.getD "M")))) := by
  refine ⟨validateOne (buildSiteIdMap allSites) site, ?_, ?_,
    buildSiteIdMap_none_iff allSites site.site_id, ?_, ?_⟩
  · rw [validate_sites_eq_map cfg allSites hnodup]
    exact dictGet?_map_of_nodup ConfigSite.name _ cfg hnodup site hmem
  · cases hm : dictGet? (buildSiteIdMap allSites) site.site_id with
    | none => rw [validateOne_of_none _ _ hm]
    | some p =>
      rw [validateOne_of_some _ _ _ hm]
      cases p.2.inverters with
      | none => rfl
      | some roster => exact pickInverter_site_id site _
  · intro hm
    rw [validateOne_of_none _ _ hm]
    exact ⟨rfl, rfl, rfl, rfl⟩
  · intro nm sd hm
    rw [validateOne_of_some _ _ _ hm]
    have hsd : ((nm, sd) : String × SiteData).2 = sd := rfl
    rw [hsd]
    refine ⟨?_, ?_, ?_, ?_⟩
    · cases sd.inverters with
      | none => rfl
      | some roster =>
        have hv : validateRoster site (some roster)
            = pickInverter site (roster.find? (fun q => eligibleType q.2)) := rfl
        rw [hv]
        cases roster.find? (fun q => eligibleType q.2) <;> rfl
    · cases sd.inverters with
      | none => rfl
      | some roster =>
        have hv : validateRoster site (some roster)
            = pickInverter site (roster.find? (fun q => eligibleType q.2)) := rfl
        rw [hv]
        cases roster.find? (fun q => eligibleType q.2) <;> rfl
    · intro hinv
      rw [hinv]
      exact ⟨rfl, rfl⟩
    · intro roster hinv
      rw [hinv]
      constructor
      · intro hall
        rw [validateRoster_no_eligible site roster hall]
        exact ⟨rfl, rfl⟩
      · intro i hi hmin
        rw [validateRoster_first_eligible site roster i hi hmin]
        exact ⟨rfl, rfl, rfl, rfl⟩

/-- Witness for C1 at a concrete configuration: one configured site whose
live roster holds an ineligible inverter first and an unset-type one
second, so the second is selected with its type defaulted to `M`. -/
theorem C1_witness :
    ∃ v : SiteValidation,
      dictGet? (validate_sites [⟨"A", "1"⟩]
        [("LiveA", ⟨"1", some [("SNX", some "X"), ("SN1", none)]⟩)])
        (ConfigSite.name ⟨"A", "1"⟩) = some v ∧
      v.site_id = some (ConfigSite.site_id ⟨"A", "1"⟩) ∧
      (dictGet? (buildSiteIdMap [("LiveA", ⟨"1", some [("SNX", some "X"), ("SN1", none)]⟩)])
          (ConfigSite.site_id ⟨"A", "1"⟩) = none ↔
        ∀ q ∈ [(("LiveA" : String),
            (⟨"1", some [("SNX", some "X"), ("SN1", none)]⟩ : SiteData))],
          q.2.id ≠ ConfigSite.site_id ⟨"A", "1"⟩) ∧
      (dictGet? (buildSiteIdMap [("LiveA", ⟨"1", some [("SNX", some "X"), ("SN1", none)]⟩)])
          (ConfigSite.site_id ⟨"A", "1"⟩) = none →
        v.status = "invalid" ∧ v.exists_ = false ∧ v.id_matches = false ∧
        v.has_inverters = false) ∧
      (∀ nm sd,
        dictGet? (buildSiteIdMap [("LiveA", ⟨"1", some [("SNX", some "X"), ("SN1", none)]⟩)])
          (ConfigSite.site_id ⟨"A", "1"⟩) = some (nm, sd) →
        v.exists_ = true ∧ v.id_matches = true ∧
        (sd.inverters = none → v.status = "invalid" ∧ v.has_inverters = false) ∧
        (∀ roster, sd.inverters = some roster →
          ((∀ q ∈ roster, eligibleType q.2 = false) →
            v.status = "invalid" ∧ v.has_inverters = false) ∧
          (∀ i : Fin roster.length,
            eligibleType (roster.get i).2 = true →
            (∀ j : Fin roster.length, j.1 < i.1 → eligibleType (roster.get j).2 = false) →
            v.has_inverters = true ∧ v.status = "valid" ∧
            v.inverter_sn = some (roster.get i).1 ∧
            v.inverter_type = some ((roster.get i).2.getD "M")))) :=
  C1_validate_sites_selection [⟨"A", "1"⟩]
    [("LiveA", ⟨"1", some [("SNX", some "X"), ("SN1", none)]⟩)]
    (by decide) ⟨"A", "1"⟩ (by decide)

/-- C10: `validate_sites` returns exactly one entry per configured site,
in configuration order (sites failing validation are kept with status
`invalid`, never omitted), and any entry with status `valid` has
`exists`, `id_matches` and `has_inverters` all true and both inverter
fields populated. -/
theorem C10_validate_sites_total
    (cfg : List ConfigSite) (allSites : List (String × SiteData))
    (hnodup : (cfg.map ConfigSite.name).Nodup) :
    ((validate_sites cfg allSites).map Prod.fst = cfg.map ConfigSite.name) ∧
    (∀ p ∈ validate_sites cfg allSites, p.2.status = "valid" →
      p.2.exists_ = true ∧ p.2.id_matches = true ∧ p.2.has_inverters = true ∧
      p.2.inverter_sn.isSome = true ∧ p.2.inverter_type.isSome = true) := by
  rw [validate_sites_eq_map cfg allSites hnodup]
  constructor
  · rw [List.map_map]
    rfl
  · intro p hp hvalid
    rcases List.mem_map.mp hp with ⟨s, _, rfl⟩
    exact validateOne_valid_fields _ s hvalid

/-- Witness for C10: two configured sites, one matching the live fleet
(valid) and one absent (kept with status invalid). -/
theorem C10_witness :
    ((validate_sites [⟨"A", "1"⟩, ⟨"B", "2"⟩]
        [("LiveA", ⟨"1", some [("SN1", some "M")]⟩)]).map Prod.fst
      = ([⟨"A", "1"⟩, ⟨"B", "2"⟩] : List ConfigSite).map ConfigSite.name) ∧
    (∀ p ∈ validate_sites [⟨"A", "1"⟩, ⟨"B", "2"⟩]
        [("LiveA", ⟨"1", some [("SN1", some "M")]⟩)], p.2.status = "valid" →
      p.2.exists_ = true ∧ p.2.id_matches = true ∧ p.2.has_inverters = true ∧
      p.2.inverter_sn.isSome = true ∧ p.2.inverter_type.isSome = true) :=
  C10_validate_sites_total [⟨"A", "1"⟩, ⟨"B", "2"⟩]
    [("LiveA", ⟨"1", some [("SN1", some "M")]⟩)] (by decide)

/-! ## Analyzer (`src/core/analyzer.py`) -/

/-- One time-series record `{'value': …, 'time': …}` as consumed by the
analyzer. `value` is the `float(...)` parse of the string payload
(`none`: key missing or unparsable); `time` is the timestamp string
(`none`: key missing). -/
structure TRec where
  value : Option Rat := none
  time : Option String := none
deriving Repr, DecidableEq

/-- One entry of `site_info['data']['data']['infos']`: a metric label
and its record list (either may be missing). -/
structure TInfo where
  label : Option String := none
  records : Option (List TRec) := none
deriving Repr, DecidableEq

/-- The raw per-site bundle assembled by `_fetch_inverter_data`; a
`none` field models the corresponding key (or the
`['data']['data']['infos']` path) being absent, which makes
`_analyze_site` raise. -/
structure SiteInfo where
  site_id : Option String := none
  inverter_sn : Option String := none
  inverter_type : Option String := none
  data : Option (List TInfo) := none
  yesterday_max_soc : Option Rat := none
deriving Repr, DecidableEq

/-- A state-of-charge report: the `"OFFLINE"` sentinel or a numeric
record value. -/
inductive SocVal where
  | offline
  | val (q : Rat)
deriving Repr, DecidableEq

/-- The `SiteAnalysis` dataclass. -/
structure SiteAnalysis where
  site_id : String
  inverter_sn : String
  inverter_type : String
  lowest_soc : SocVal
  lowest_soc_time : Option String
  current_soc : SocVal
  current_soc_time : Option String
  max_v_diff : Option Rat
  max_diff_time : Option String
  max_v_bat : Option Rat
  max_v_bat_time : Option String
  current_v_bat : Option Rat
  current_vbms : Option Rat
  current_voltage_time : Option String
  yesterday_max_soc : Option Rat
deriving Repr, DecidableEq

/-- The initial `SiteAnalysis(...)` literal built at the top of
`_analyze_site` (lines 44-60): OFFLINE sentinels, all metrics unset. -/
def initAnalysis (sid sn ty : String) (y : Option Rat) : SiteAnalysis :=
  { site_id := sid, inverter_sn := sn, inverter_type := ty,
    lowest_soc := .offline, lowest_soc_time := none,
    current_soc := .offline, current_soc_time := none,
    max_v_diff := none, max_diff_time := none,
    max_v_bat := none, max_v_bat_time := none,
    current_v_bat := none, current_vbms := none, current_voltage_time := none,
    yesterday_max_soc := y }

/-- `next((info['records'] for info in data if info['label'] == label), [])`:
scan `infos` in order; a missing `'label'` key raises, the first match
yields its `'records'` (raising if that key is missing), exhaustion
yields `[]`. -/
def nextRecords (label : String) : List TInfo → Option (List TRec)
  | [] => some []
  | i :: rest =>
    match i.label with
    | none => none
    | some l => if l == label then i.records else nextRecords label rest

/-- `min(soc_records, key=lambda x: float(x['value']))`: the key is
evaluated on every record (any parse failure raises); on ties the
earliest record wins, as with CPython's `min`. Returns the winning
record together with its numeric key. -/
def minSoc : List TRec → Option (TRec × Rat)
  | [] => none
  | [r] => r.value.bind fun q => some (r, q)
  | r :: s :: rest =>
    r.value.bind fun q =>
    (minSoc (s :: rest)).bind fun p =>
    some (if q ≤ p.2 then (r, q) else p)

/-- Python's `abs(...)` on the parsed voltages, written so that it
kernel-evaluates on rational literals. -/
def ratAbs (q : Rat) : Rat :=
  if q < 0 then -q else q

theorem ratAbs_eq_abs (q : Rat) : ratAbs q = |q| := by
  unfold ratAbs
  by_cases h : q < 0
  · rw [if_pos h, abs_of_neg h]
  · rw [if_neg h, abs_of_nonneg (le_of_not_lt h)]

/-- `analysis.max_v_diff is None or diff > analysis.max_v_diff`. -/
def improves (cur : Option Rat) (d : Rat) : Bool :=
  match cur with
  | none => true
  | some c => decide (c < d)

/-- The four assignments of the `if soc_records:` branch
(lines 69-72), each record access fallible. -/
def socFields (a : SiteAnalysis) (p : TRec × Rat) (cur : TRec) : Option SiteAnalysis :=
  p.1.time.bind fun lt =>
  cur.value.bind fun cq =>
  cur.time.bind fun ct =>
  some { a with lowest_soc := .val p.2, lowest_soc_time := some lt,
                current_soc := .val cq, current_soc_time := some ct }

/-- The `if soc_records:` branch of `_analyze_site`: stable minimum by
numeric value and last record as the current one. -/
def analyzeSoc (rs : List TRec) (a : SiteAnalysis) : Option SiteAnalysis :=
  match rs with
  | [] => some a
  | r :: rest =>
    (minSoc (r :: rest)).bind fun p =>
    socFields a p ((r :: rest).getLast (List.cons_ne_nil r rest))

/-- The `for v_bat_rec, vbms_rec in zip(...)` loop (lines 83-92):
positional pairs, absolute difference, strict-improvement maximum;
the record's `'time'` is read only when an update fires. -/
def vDiffFold : List (TRec × TRec) → SiteAnalysis → Option SiteAnalysis
  | [], a => some a
  | (b, m) :: rest, a =>
    b.value.bind fun bv =>
    m.value.bind fun mv =>
    if improves a.max_v_diff (ratAbs (bv - mv)) then
      b.time.bind fun t =>
      vDiffFold rest
        { a with max_v_diff := some (ratAbs (bv - mv)), max_diff_time := some t,
                 max_v_bat := some bv, max_v_bat_time := some t }
    else vDiffFold rest a

/-- The `if v_bat_records and vbms_records:` branch: current readings
from the last record of each series independently, then the
positional-pair maximum-differential loop. -/
def analyzeVolt (vb vm : List TRec) (a : SiteAnalysis) : Option SiteAnalysis :=
  match vb, vm with
  | b :: bs, m :: ms =>
    (((b :: bs).getLast (List.cons_ne_nil b bs)).value).bind fun cb =>
    (((m :: ms).getLast (List.cons_ne_nil m ms)).value).bind fun cm =>
    (((b :: bs).getLast (List.cons_ne_nil b bs)).time).bind fun ct =>
    vDiffFold ((b :: bs).zip (m :: ms))
      { a with current_v_bat := some cb, current_vbms := some cm,
               current_voltage_time := some ct }
  | _, _ => some a

/-- `_analyze_site`: `none` models the per-site exception that `analyze`
catches (missing keys, unparsable floats). -/
def analyzeSite (si : SiteInfo) : Option SiteAnalysis :=
  si.site_id.bind fun sid =>
  si.inverter_sn.bind fun sn =>
  si.inverter_type.bind fun ty =>
  si.data.bind fun d =>
  (nextRecords "SOC" d).bind fun soc =>
  (nextRecords "V-bat" d).bind fun vb =>
  (nextRecords "BMS Voltage" d).bind fun vm =>
  (analyzeSoc soc (initAnalysis sid sn ty si.yesterday_max_soc)).bind fun a1 =>
  analyzeVolt vb vm a1

/-- The extraction `next((info['records'] for info in
site_info['data']['data']['infos'] if info['label'] == label), [])`
as seen from the bundle. -/
def recordsOf (si : SiteInfo) (label : String) : Option (List TRec) :=
  match si.data with
  | none => none
  | some d => nextRecords label d

/-- One iteration of the `analyze` loop: per-site try/except — a failing
site is skipped, a succeeding one is written into the result dict. -/
def analyzeStep (r : List (String × SiteAnalysis)) (p : String × SiteInfo) :
    List (String × SiteAnalysis) :=
  match analyzeSite p.2 with
  | some a => dictInsert r p.1 a
  | none => r

/-- `DataAnalyzer.analyze`. -/
def analyze (fetched : List (String × SiteInfo)) : List (String × SiteAnalysis) :=
  fetched.foldl analyzeStep []

theorem analyzeStep_eq (r : List (String × SiteAnalysis)) (p : String × SiteInfo) :
    analyzeStep r p
      = (analyzeSite p.2).elim r (fun b => dictInsert r p.1 b) := by
  unfold analyzeStep
  cases analyzeSite p.2 <;> rfl

/-- CPython's `min` with a numeric key: the returned record sits at an
index that is globally minimal and strictly smaller than every earlier
record's key (first-occurrence tie-break). -/
theorem minSoc_spec : ∀ (rs : List TRec) (r : TRec) (q : Rat),
    minSoc rs = some (r, q) →
    ∃ i : Fin rs.length,
      rs.get i = r ∧ r.value = some q ∧
      (∀ j : Fin rs.length, ∀ qj, (rs.get j).value = some qj → q ≤ qj) ∧
      (∀ j : Fin rs.length, j.1 < i.1 → ∀ qj, (rs.get j).value = some qj → q < qj)
  | [], r, q, h => by simp [minSoc] at h
  | [r0], r, q, h => by
    simp only [minSoc, Option.bind_eq_some] at h
    obtain ⟨q0, hv0, heq⟩ := h
    have hpair := Option.some.inj heq
    rw [Prod.mk.injEq] at hpair
    obtain ⟨hr0, hq0⟩ := hpair
    refine ⟨⟨0, Nat.succ_pos _⟩, hr0, ?_, ?_, ?_⟩
    · rw [← hr0, hv0, hq0]
    · intro j qj hj
      rcases j with ⟨jv, hjlt⟩
      cases jv with
      | zero =>
        have hv : r0.value = some qj := hj
        rw [hv0] at hv
        obtain rfl := Option.some.inj hv
        rw [← hq0]
      | succ k => exact absurd (show k + 1 < 1 from hjlt) (by omega)
    · intro j hj qj hjv
      exact absurd hj (Nat.not_lt_zero _)
  | r0 :: s :: rest, r, q, h => by
    simp only [minSoc, Option.bind_eq_some] at h
    obtain ⟨q0, hv0, p, hm, heq⟩ := h
    obtain ⟨i2, hget2, hval2, hmin2, hstrict2⟩ :=
      minSoc_spec (s :: rest) p.1 p.2 (by rw [hm])
    by_cases hq : q0 ≤ p.2
    · rw [if_pos hq] at heq
      have hpair := Option.some.inj heq
      rw [Prod.mk.injEq] at hpair
      obtain ⟨hr0, hq0⟩ := hpair
      refine ⟨⟨0, Nat.succ_pos _⟩, hr0, ?_, ?_, ?_⟩
      · rw [← hr0, hv0, hq0]
      · intro j qj hj
        rcases j with ⟨jv, hjlt⟩
        cases jv with
        | zero =>
          have hv : r0.value = some qj := hj
          rw [hv0] at hv
          obtain rfl := Option.some.inj hv
          rw [← hq0]
        | succ k =>
          have hj2 : ((s :: rest).get ⟨k, Nat.lt_of_succ_lt_succ hjlt⟩).value = some qj := hj
          rw [← hq0]
          exact le_trans hq (hmin2 ⟨k, Nat.lt_of_succ_lt_succ hjlt⟩ qj hj2)
      · intro j hj qj hjv
        exact absurd hj (Nat.not_lt_zero _)
    · rw [if_neg hq] at heq
      have hpair := Option.some.inj heq
      rw [Prod.ext_iff] at hpair
      have hr0 : p.1 = r := hpair.1
      have hq0 : p.2 = q := hpair.2
      have hlt : p.2 < q0 := lt_of_not_le hq
      refine ⟨⟨i2.1 + 1, Nat.succ_lt_succ i2.2⟩, ?_, ?_, ?_, ?_⟩
      · show (s :: rest).get ⟨i2.1, i2.2⟩ = r
        rw [show (⟨i2.1, i2.2⟩ : Fin (s :: rest).length) = i2 from rfl, hget2]
        exact hr0
      · rw [← hr0, ← hq0]
        exact hval2
      · intro j qj hj
        rcases j with ⟨jv, hjlt⟩
        cases jv with
        | zero =>
          have hv : r0.value = some qj := hj
          rw [hv0] at hv
          obtain rfl := Option.some.inj hv
          rw [← hq0]
          exact le_of_lt hlt
        | succ k =>
          have hj2 : ((s :: rest).get ⟨k, Nat.lt_of_succ_lt_succ hjlt⟩).value = some qj := hj
          rw [← hq0]
          exact hmin2 ⟨k, Nat.lt_of_succ_lt_succ hjlt⟩ qj hj2
      · intro j hj qj hjv
        rcases j with ⟨jv, hjlt⟩
        cases jv with
        | zero =>
          have hv : r0.value = some qj := hjv
          rw [hv0] at hv
          obtain rfl := Option.some.inj hv
          rw [← hq0]
          exact hlt
        | succ k =>
          have hk : k < i2.1 := Nat.lt_of_succ_lt_succ hj
          have hj2 : ((s :: rest).get ⟨k, Nat.lt_of_succ_lt_succ hjlt⟩).value = some qj := hjv
          rw [← hq0]
          exact hstrict2 ⟨k, Nat.lt_of_succ_lt_succ hjlt⟩ hk qj hj2

/-- Pure replay of the strict-improvement maximum scan over the list of
differentials: index and value of the record the loop ends up keeping
(`none` when no element ever improves on the incoming maximum). -/
def winner (cur : Option Rat) : List Rat → Option (Nat × Rat)
  | [] => none
  | d :: ds =>
    if improves cur d then
      match winner (some d) ds with
      | none => some (0, d)
      | some p => some (p.1 + 1, p.2)
    else
      match winner cur ds with
      | none => none
      | some p => some (p.1 + 1, p.2)

theorem winner_none_spec : ∀ (ds : List Rat) (cur : Option Rat),
    winner cur ds = none → ∀ e ∈ ds, improves cur e = false
  | [], _, _, e, he => absurd he (List.not_mem_nil e)
  | d :: ds, cur, h, e, he => by
    unfold winner at h
    by_cases hc : improves cur d = true
    · rw [if_pos hc] at h
      cases hw : winner (some d) ds <;> rw [hw] at h <;> cases h
    · rw [if_neg hc] at h
      cases hw : winner cur ds with
      | none =>
        rcases List.mem_cons.mp he with rfl | het
        · exact Bool.eq_false_iff.mpr hc
        · exact winner_none_spec ds cur hw e het
      | some p => rw [hw] at h; cases h

theorem winner_spec : ∀ (ds : List Rat) (cur : Option Rat) (i : Nat) (w : Rat),
    winner cur ds = some (i, w) →
    ∃ h : i < ds.length,
      w = ds.get ⟨i, h⟩ ∧
      improves cur w = true ∧
      (∀ j (hj : j < ds.length), j < i → ds.get ⟨j, hj⟩ < w) ∧
      (∀ j (hj : j < ds.length), ds.get ⟨j, hj⟩ ≤ w)
  | [], cur, i, w, h => by cases h
  | d :: ds, cur, i, w, h => by
    unfold winner at h
    by_cases hc : improves cur d = true
    · rw [if_pos hc] at h
      cases hw : winner (some d) ds with
      | none =>
        rw [hw] at h
        have hpair := Option.some.inj h
        have hi : 0 = i := congrArg Prod.fst hpair
        have hd : d = w := congrArg Prod.snd hpair
        subst hi
        subst hd
        refine ⟨Nat.succ_pos _, rfl, hc, ?_, ?_⟩
        · intro j hj hji
          exact absurd hji (Nat.not_lt_zero _)
        · intro j hj
          cases j with
          | zero => exact le_refl d
          | succ k =>
            have he := winner_none_spec ds (some d) hw
              (ds.get ⟨k, Nat.lt_of_succ_lt_succ hj⟩) (List.get_mem ds _ _)
            have : ¬ (d < ds.get ⟨k, Nat.lt_of_succ_lt_succ hj⟩) := by
              simpa [improves] using he
            exact le_of_not_lt this
      | some p =>
        rw [hw] at h
        have hpair := Option.some.inj h
        have hi : p.1 + 1 = i := congrArg Prod.fst hpair
        have hww : p.2 = w := congrArg Prod.snd hpair
        subst hi
        subst hww
        obtain ⟨hlen, hget, himp, hstrict, hall⟩ :=
          winner_spec ds (some d) p.1 p.2 (by rw [hw])
        have hdw : d < p.2 := by simpa [improves] using himp
        refine ⟨Nat.succ_lt_succ hlen, hget, ?_, ?_, ?_⟩
        · cases cur with
          | none => rfl
          | some c =>
            have hcd : c < d := by simpa [improves] using hc
            simp [improves]
            exact lt_trans hcd hdw
        · intro j hj hji
          cases j with
          | zero => exact hdw
          | succ k =>
            exact hstrict k (Nat.lt_of_succ_lt_succ hj) (Nat.lt_of_succ_lt_succ hji)
        · intro j hj
          cases j with
          | zero => exact le_of_lt hdw
          | succ k => exact hall k (Nat.lt_of_succ_lt_succ hj)
    · rw [if_neg hc] at h
      cases hw : winner cur ds with
      | none => rw [hw] at h; cases h
      | some p =>
        rw [hw] at h
        have hpair := Option.some.inj h
        have hi : p.1 + 1 = i := congrArg Prod.fst hpair
        have hww : p.2 = w := congrArg Prod.snd hpair
        subst hi
        subst hww
        obtain ⟨hlen, hget, himp, hstrict, hall⟩ :=
          winner_spec ds cur p.1 p.2 (by rw [hw])
        have hcur : ∃ c, cur = some c := by
          cases cur with
          | none => exact absurd rfl hc
          | some c => exact ⟨c, rfl⟩
        obtain ⟨c, rfl⟩ := hcur
        have hdc : d ≤ c := by
          have := Bool.eq_false_iff.mpr hc
          simpa [improves] using this
        have hcw : c < p.2 := by simpa [improves] using himp
        have hdw : d < p.2 := lt_of_le_of_lt hdc hcw
        refine ⟨Nat.succ_lt_succ hlen, hget, himp, ?_, ?_⟩
        · intro j hj hji
          cases j with
          | zero => exact hdw
          | succ k =>
            exact hstrict k (Nat.lt_of_succ_lt_succ hj) (Nat.lt_of_succ_lt_succ hji)
        · intro j hj
          cases j with
          | zero => exact le_of_lt hdw
          | succ k => exact hall k (Nat.lt_of_succ_lt_succ hj)

theorem winner_none_ne_none (d : Rat) (ds : List Rat) :
    winner none (d :: ds) ≠ none := by
  unfold winner
  rw [if_pos (show improves none d = true from rfl)]
  cases winner (some d) ds <;> simp

/-- The differential of one positional pair (total on parsed pairs;
`vDiffFold` only succeeds when every pair parses). -/
def pdiff (p : TRec × TRec) : Rat :=
  ratAbs (p.1.value.getD 0 - p.2.value.getD 0)

/-- The voltage loop parses every positional pair and updates exactly at
strict improvements: its outcome is described by `winner` over the
pairwise differentials, with the timestamp/voltage side data taken from
the battery-voltage record of the winning index. -/
theorem vDiffFold_spec : ∀ (l : List (TRec × TRec)) (a res : SiteAnalysis),
    vDiffFold l a = some res →
    (∀ p ∈ l, p.1.value.isSome = true ∧ p.2.value.isSome = true) ∧
    (match winner a.max_v_diff (l.map pdiff) with
     | none => res = a
     | some (i, w) =>
       ∃ h : i < l.length,
         res = { a with max_v_diff := some w,
                        max_diff_time := (l.get ⟨i, h⟩).1.time,
                        max_v_bat := (l.get ⟨i, h⟩).1.value,
                        max_v_bat_time := (l.get ⟨i, h⟩).1.time })
  | [], a, res, h => by
    refine ⟨fun p hp => absurd hp (List.not_mem_nil p), ?_⟩
    exact (Option.some.inj h).symm
  | (b, m) :: rest, a, res, h => by
    simp only [vDiffFold, Option.bind_eq_some] at h
    obtain ⟨bv, hbv, mv, hmv, hif⟩ := h
    have hpd : pdiff (b, m) = ratAbs (bv - mv) := by simp [pdiff, hbv, hmv]
    by_cases hc : improves a.max_v_diff (ratAbs (bv - mv)) = true
    · rw [if_pos hc] at hif
      simp only [Option.bind_eq_some] at hif
      obtain ⟨t, hbt, hrec⟩ := hif
      obtain ⟨hparse, hmatch⟩ := vDiffFold_spec rest
        { a with max_v_diff := some (ratAbs (bv - mv)), max_diff_time := some t,
                 max_v_bat := some bv, max_v_bat_time := some t } res hrec
      refine ⟨?_, ?_⟩
      · intro p hp
        rcases List.mem_cons.mp hp with rfl | hpt
        · exact ⟨by simp [hbv], by simp [hmv]⟩
        · exact hparse p hpt
      · rw [List.map_cons, hpd]
        unfold winner
        rw [if_pos hc]
        have hproj : ({ a with
              max_v_diff := some (ratAbs (bv - mv)), max_diff_time := some t,
              max_v_bat := some bv, max_v_bat_time := some t } : SiteAnalysis).max_v_diff
            = some (ratAbs (bv - mv)) := rfl
        rw [hproj] at hmatch
        cases hw : winner (some (ratAbs (bv - mv))) (rest.map pdiff) with
        | none =>
          rw [hw] at hmatch
          have hres : res = { a with
              max_v_diff := some (ratAbs (bv - mv)), max_diff_time := some t,
              max_v_bat := some bv, max_v_bat_time := some t } := hmatch
          have hres2 : res = { a with
              max_v_diff := some (ratAbs (bv - mv)), max_diff_time := b.time,
              max_v_bat := b.value, max_v_bat_time := b.time } := by
            rw [hres, hbt, hbv]
          exact ⟨Nat.succ_pos _, hres2⟩
        | some p =>
          rcases p with ⟨i2, w2⟩
          rw [hw] at hmatch
          have hmatch2 : ∃ h2 : i2 < rest.length,
              res = { a with max_v_diff := some w2,
                             max_diff_time := (rest.get ⟨i2, h2⟩).1.time,
                             max_v_bat := (rest.get ⟨i2, h2⟩).1.value,
                             max_v_bat_time := (rest.get ⟨i2, h2⟩).1.time } := hmatch
          obtain ⟨h2, hres⟩ := hmatch2
          exact ⟨Nat.succ_lt_succ h2, hres⟩
    · rw [if_neg hc] at hif
      obtain ⟨hparse, hmatch⟩ := vDiffFold_spec rest a res hif
      refine ⟨?_, ?_⟩
      · intro p hp
        rcases List.mem_cons.mp hp with rfl | hpt
        · exact ⟨by simp [hbv], by simp [hmv]⟩
        · exact hparse p hpt
      · rw [List.map_cons, hpd]
        unfold winner
        rw [if_neg hc]
        cases hw : winner a.max_v_diff (rest.map pdiff) with
        | none =>
          rw [hw] at hmatch
          exact hmatch
        | some p =>
          rcases p with ⟨i2, w2⟩
          rw [hw] at hmatch
          have hmatch2 : ∃ h2 : i2 < rest.length,
              res = { a with max_v_diff := some w2,
                             max_diff_time := (rest.get ⟨i2, h2⟩).1.time,
                             max_v_bat := (rest.get ⟨i2, h2⟩).1.value,
                             max_v_bat_time := (rest.get ⟨i2, h2⟩).1.time } := hmatch
          obtain ⟨h2, hres⟩ := hmatch2
          exact ⟨Nat.succ_lt_succ h2, hres⟩

/-- The voltage loop touches only the four `max_*` fields. -/
theorem vDiffFold_preserves (l : List (TRec × TRec)) (a res : SiteAnalysis)
    (h : vDiffFold l a = some res) :
    res.site_id = a.site_id ∧ res.inverter_sn = a.inverter_sn ∧
    res.inverter_type = a.inverter_type ∧
    res.lowest_soc = a.lowest_soc ∧ res.lowest_soc_time = a.lowest_soc_time ∧
    res.current_soc = a.current_soc ∧ res.current_soc_time = a.current_soc_time ∧
    res.current_v_bat = a.current_v_bat ∧ res.current_vbms = a.current_vbms ∧
    res.current_voltage_time = a.current_voltage_time ∧
    res.yesterday_max_soc = a.yesterday_max_soc := by
  have hs := (vDiffFold_spec l a res h).2
  cases hw : winner a.max_v_diff (l.map pdiff) with
  | none =>
    rw [hw] at hs
    have hres : res = a := hs
    rw [hres]
    exact ⟨rfl, rfl, rfl, rfl, rfl, rfl, rfl, rfl, rfl, rfl, rfl⟩
  | some p =>
    rcases p with ⟨i, w⟩
    rw [hw] at hs
    have hs2 : ∃ hl : i < l.length, res = { a with
        max_v_diff := some w,
        max_diff_time := (l.get ⟨i, hl⟩).1.time,
        max_v_bat := (l.get ⟨i, hl⟩).1.value,
        max_v_bat_time := (l.get ⟨i, hl⟩).1.time } := hs
    obtain ⟨hl, hres⟩ := hs2
    rw [hres]
    exact ⟨rfl, rfl, rfl, rfl, rfl, rfl, rfl, rfl, rfl, rfl, rfl⟩

theorem analyzeVolt_nil_left (vm : List TRec) (a : SiteAnalysis) :
    analyzeVolt [] vm a = some a := by cases vm <;> rfl

theorem analyzeVolt_nil_right (vb : List TRec) (a : SiteAnalysis) :
    analyzeVolt vb [] a = some a := by cases vb <;> rfl

theorem analyzeVolt_cons_elim (b m : TRec) (bs ms : List TRec) (a res : SiteAnalysis)
    (h : analyzeVolt (b :: bs) (m :: ms) a = some res) :
    ∃ cb cm ct,
      ((b :: bs).getLast (List.cons_ne_nil b bs)).value = some cb ∧
      ((m :: ms).getLast (List.cons_ne_nil m ms)).value = some cm ∧
      ((b :: bs).getLast (List.cons_ne_nil b bs)).time = some ct ∧
      vDiffFold ((b :: bs).zip (m :: ms))
        { a with current_v_bat := some cb, current_vbms := some cm,
                 current_voltage_time := some ct } = some res := by
  simp only [analyzeVolt, Option.bind_eq_some] at h
  obtain ⟨cb, h1, cm, h2, ct, h3, h4⟩ := h
  exact ⟨cb, cm, ct, h1, h2, h3, h4⟩

/-- `analyzeVolt` touches neither the state-of-charge fields nor the
identity fields. -/
theorem analyzeVolt_preserves_soc (vb vm : List TRec) (a res : SiteAnalysis)
    (h : analyzeVolt vb vm a = some res) :
    res.lowest_soc = a.lowest_soc ∧ res.lowest_soc_time = a.lowest_soc_time ∧
    res.current_soc = a.current_soc ∧ res.current_soc_time = a.current_soc_time ∧
    res.site_id = a.site_id ∧ res.inverter_sn = a.inverter_sn ∧
    res.inverter_type = a.inverter_type ∧
    res.yesterday_max_soc = a.yesterday_max_soc := by
  cases vb with
  | nil =>
    rw [analyzeVolt_nil_left] at h
    have hres : res = a := (Option.some.inj h).symm
    rw [hres]
    exact ⟨rfl, rfl, rfl, rfl, rfl, rfl, rfl, rfl⟩
  | cons b bs =>
    cases vm with
    | nil =>
      rw [analyzeVolt_nil_right] at h
      have hres : res = a := (Option.some.inj h).symm
      rw [hres]
      exact ⟨rfl, rfl, rfl, rfl, rfl, rfl, rfl, rfl⟩
    | cons m ms =>
      obtain ⟨cb, cm, ct, h1, h2, h3, h4⟩ := analyzeVolt_cons_elim b m bs ms a res h
      obtain ⟨p1, p2, p3, p4, p5, p6, p7, p8, p9, p10, p11⟩ :=
        vDiffFold_preserves _ _ _ h4
      exact ⟨p4, p5, p6, p7, p1, p2, p3, p11⟩

theorem analyzeSoc_nil (a : SiteAnalysis) : analyzeSoc [] a = some a := rfl

theorem analyzeSoc_cons_elim (r : TRec) (rest : List TRec) (a res : SiteAnalysis)
    (h : analyzeSoc (r :: rest) a = some res) :
    ∃ p lt cq ct,
      minSoc (r :: rest) = some p ∧ p.1.time = some lt ∧
      ((r :: rest).getLast (List.cons_ne_nil r rest)).value = some cq ∧
      ((r :: rest).getLast (List.cons_ne_nil r rest)).time = some ct ∧
      res = { a with
        lowest_soc := .val p.2, lowest_soc_time := some lt,
        current_soc := .val cq, current_soc_time := some ct } := by
  simp only [analyzeSoc, socFields, Option.bind_eq_some] at h
  obtain ⟨p, hp, lt, h1, cq, h2, ct, h3, h4⟩ := h
  exact ⟨p, lt, cq, ct, hp, h1, h2, h3, (Option.some.inj h4).symm⟩

/-- `analyzeSoc` touches only the four state-of-charge fields. -/
theorem analyzeSoc_preserves (rs : List TRec) (a res : SiteAnalysis)
    (h : analyzeSoc rs a = some res) :
    res.site_id = a.site_id ∧ res.inverter_sn = a.inverter_sn ∧
    res.inverter_type = a.inverter_type ∧
    res.max_v_diff = a.max_v_diff ∧ res.max_diff_time = a.max_diff_time ∧
    res.max_v_bat = a.max_v_bat ∧ res.max_v_bat_time = a.max_v_bat_time ∧
    res.current_v_bat = a.current_v_bat ∧ res.current_vbms = a.current_vbms ∧
    res.current_voltage_time = a.current_voltage_time ∧
    res.yesterday_max_soc = a.yesterday_max_soc := by
  cases rs with
  | nil =>
    have hres : res = a := (Option.some.inj h).symm
    rw [hres]
    exact ⟨rfl, rfl, rfl, rfl, rfl, rfl, rfl, rfl, rfl, rfl, rfl⟩
  | cons r rest =>
    obtain ⟨p, lt, cq, ct, hp, h1, h2, h3, hres⟩ := analyzeSoc_cons_elim r rest a res h
    rw [hres]
    exact ⟨rfl, rfl, rfl, rfl, rfl, rfl, rfl, rfl, rfl, rfl, rfl⟩

theorem analyzeSite_elim (si : SiteInfo) (a : SiteAnalysis)
    (h : analyzeSite si = some a) :
    ∃ sid sn ty d soc vb vm a1,
      si.site_id = some sid ∧ si.inverter_sn = some sn ∧ si.inverter_type = some ty ∧
      si.data = some d ∧
      nextRecords "SOC" d = some soc ∧ nextRecords "V-bat" d = some vb ∧
      nextRecords "BMS Voltage" d = some vm ∧
      analyzeSoc soc (initAnalysis sid sn ty si.yesterday_max_soc) = some a1 ∧
      analyzeVolt vb vm a1 = some a := by
  simp only [analyzeSite, Option.bind_eq_some] at h
  obtain ⟨sid, h1, sn, h2, ty, h3, d, h4, soc, h5, vb, h6, vm, h7, a1, h8, h9⟩ := h
  exact ⟨sid, sn, ty, d, soc, vb, vm, a1, h1, h2, h3, h4, h5, h6, h7, h8, h9⟩

theorem recordsOf_eq (si : SiteInfo) (d : List TInfo) (label : String)
    (h : si.data = some d) : recordsOf si label = nextRecords label d := by
  unfold recordsOf
  rw [h]

theorem zip_len_left (vb vm : List TRec) (j : Nat) (hj : j < (vb.zip vm).length) :
    j < vb.length := by
  rw [List.length_zip] at hj
  omega

theorem zip_len_right (vb vm : List TRec) (j : Nat) (hj : j < (vb.zip vm).length) :
    j < vm.length := by
  rw [List.length_zip] at hj
  omega

theorem zip_get_eq (vb vm : List TRec) (j : Nat) (hj : j < (vb.zip vm).length) :
    (vb.zip vm).get ⟨j, hj⟩
      = (vb.get ⟨j, zip_len_left vb vm j hj⟩, vm.get ⟨j, zip_len_right vb vm j hj⟩) := by
  simp [List.get_eq_getElem, List.getElem_zip]

/-- C3: on a site bundle whose analysis succeeds, a non-empty
state-of-charge series yields `lowest_soc` from a record of globally
minimal numeric value whose index beats every earlier record strictly
(first-occurrence tie-break) together with its timestamp, and
`current_soc` from the last record in series order; an empty series
leaves both fields `OFFLINE` with absent timestamps. -/
theorem C3_soc_extrema (si : SiteInfo) (a : SiteAnalysis) (rs : List TRec)
    (ha : analyzeSite si = some a) (hrs : recordsOf si "SOC" = some rs) :
    (rs = [] → a.lowest_soc = SocVal.offline ∧ a.lowest_soc_time = none ∧
      a.current_soc = SocVal.offline ∧ a.current_soc_time = none) ∧
    (∀ hne : rs ≠ [],
      ∃ (i : Fin rs.length) (q : Rat),
        (rs.get i).value = some q ∧
        a.lowest_soc = SocVal.val q ∧
        a.lowest_soc_time = (rs.get i).time ∧
        (∀ j : Fin rs.length, ∀ qj, (rs.get j).value = some qj → q ≤ qj) ∧
        (∀ j : Fin rs.length, j.1 < i.1 → ∀ qj, (rs.get j).value = some qj → q < qj) ∧
        (∃ cq, (rs.getLast hne).value = some cq ∧
          a.current_soc = SocVal.val cq ∧
          a.current_soc_time = (rs.getLast hne).time)) := by
  obtain ⟨sid, sn, ty, d, soc, vb, vm, a1, h1, h2, h3, h4, h5, h6, h7, h8, h9⟩ :=
    analyzeSite_elim si a ha
  rw [recordsOf_eq si d "SOC" h4, h5] at hrs
  have hsoc : soc = rs := Option.some.inj hrs
  subst hsoc
  obtain ⟨hl1, hl2, hl3, hl4, _, _, _, _⟩ := analyzeVolt_preserves_soc vb vm a1 a h9
  constructor
  · intro hnil
    subst hnil
    have ha1 : a1 = initAnalysis sid sn ty si.yesterday_max_soc :=
      (Option.some.inj h8).symm
    rw [hl1, hl2, hl3, hl4, ha1]
    exact ⟨rfl, rfl, rfl, rfl⟩
  · intro hne
    cases soc with
    | nil => exact absurd rfl hne
    | cons r rest =>
      obtain ⟨p, lt, cq, ct, hp, hlt, hcq, hct, hres⟩ :=
        analyzeSoc_cons_elim r rest _ a1 h8
      obtain ⟨imin, hget, hval, hmin, hstrict⟩ :=
        minSoc_spec (r :: rest) p.1 p.2 (by rw [hp])
      refine ⟨imin, p.2, ?_, ?_, ?_, hmin, hstrict, ?_⟩
      · rw [hget]
        exact hval
      · rw [hl1, hres]
      · rw [hl2, hres, hget, hlt]
      · refine ⟨cq, hcq, ?_, ?_⟩
        · rw [hl3, hres]
        · rw [hl4, hres, hct]

theorem map_pdiff_get (vb vm : List TRec) (j : Nat) (hj : j < (vb.zip vm).length) :
    ((vb.zip vm).map pdiff).get ⟨j, by simpa using hj⟩
      = pdiff ((vb.zip vm).get ⟨j, hj⟩) := by
  simp [List.get_eq_getElem, List.getElem_map]

theorem pdiff_at (vb vm : List TRec) (j : Nat) (hj : j < (vb.zip vm).length)
    (bj mj : Rat)
    (hbj : (vb.get ⟨j, zip_len_left vb vm j hj⟩).value = some bj)
    (hmj : (vm.get ⟨j, zip_len_right vb vm j hj⟩).value = some mj) :
    pdiff ((vb.zip vm).get ⟨j, hj⟩) = ratAbs (bj - mj) := by
  rw [zip_get_eq vb vm j hj]
  rw [List.get_eq_getElem] at hbj hmj
  simp [pdiff, hbj, hmj]

/-- C4: the voltage-differential scan pairs the two series by position,
considers exactly `min` of the two lengths many pairs, takes absolute
differences, and keeps the maximum under strict-greater-than comparison
(first occurrence wins ties), recording the battery-voltage record's
timestamp and value of the winning pair; when either series is empty the
four `max` fields stay unset. -/
theorem C4_voltage_differential (si : SiteInfo) (a : SiteAnalysis) (vb vm : List TRec)
    (ha : analyzeSite si = some a)
    (hvb : recordsOf si "V-bat" = some vb)
    (hvm : recordsOf si "BMS Voltage" = some vm) :
    ((vb = [] ∨ vm = []) → a.max_v_diff = none ∧ a.max_diff_time = none ∧
      a.max_v_bat = none ∧ a.max_v_bat_time = none) ∧
    (vb ≠ [] → vm ≠ [] →
      (vb.zip vm).length = min vb.length vm.length ∧
      ∃ (i : Nat) (hi : i < (vb.zip vm).length) (bi mi : Rat),
        (vb.get ⟨i, zip_len_left vb vm i hi⟩).value = some bi ∧
        (vm.get ⟨i, zip_len_right vb vm i hi⟩).value = some mi ∧
        a.max_v_diff = some |bi - mi| ∧
        a.max_diff_time = (vb.get ⟨i, zip_len_left vb vm i hi⟩).time ∧
        a.max_v_bat = some bi ∧
        a.max_v_bat_time = (vb.get ⟨i, zip_len_left vb vm i hi⟩).time ∧
        (∀ (j : Nat) (hj : j < (vb.zip vm).length) (bj mj : Rat),
          (vb.get ⟨j, zip_len_left vb vm j hj⟩).value = some bj →
          (vm.get ⟨j, zip_len_right vb vm j hj⟩).value = some mj →
          |bj - mj| ≤ |bi - mi|) ∧
        (∀ (j : Nat) (hj : j < (vb.zip vm).length), j < i →
          ∀ (bj mj : Rat),
          (vb.get ⟨j, zip_len_left vb vm j hj⟩).value = some bj →
          (vm.get ⟨j, zip_len_right vb vm j hj⟩).value = some mj →
          |bj - mj| < |bi - mi|)) := by
  obtain ⟨sid, sn, ty, d, soc, vb0, vm0, a1, h1, h2, h3, h4, h5, h6, h7, h8, h9⟩ :=
    analyzeSite_elim si a ha
  rw [recordsOf_eq si d "V-bat" h4, h6] at hvb
  rw [recordsOf_eq si d "BMS Voltage" h4, h7] at hvm
  have hb0 : vb0 = vb := Option.some.inj hvb
  have hm0 : vm0 = vm := Option.some.inj hvm
  subst hb0
  subst hm0
  obtain ⟨_, _, _, m1, m2, m3, m4, _, _, _, _⟩ := analyzeSoc_preserves soc _ a1 h8
  constructor
  · intro hor
    have hres : a = a1 := by
      rcases hor with hnil | hnil
      · subst hnil
        rw [analyzeVolt_nil_left] at h9
        exact (Option.some.inj h9).symm
      · subst hnil
        rw [analyzeVolt_nil_right] at h9
        exact (Option.some.inj h9).symm
    rw [hres, m1, m2, m3, m4]
    exact ⟨rfl, rfl, rfl, rfl⟩
  · intro hbne hmne
    refine ⟨List.length_zip _ _, ?_⟩
    cases vb0 with
    | nil => exact absurd rfl hbne
    | cons b bs =>
      cases vm0 with
      | nil => exact absurd rfl hmne
      | cons m ms =>
        obtain ⟨cb, cm, ct, hcb, hcm, hctv, hfold⟩ :=
          analyzeVolt_cons_elim b m bs ms a1 a h9
        have hnone : ({ a1 with
            current_v_bat := some cb, current_vbms := some cm,
            current_voltage_time := some ct } : SiteAnalysis).max_v_diff = none := m1
        obtain ⟨hparse, hmatch⟩ := vDiffFold_spec _ _ _ hfold
        rw [hnone] at hmatch
        cases hw : winner none (((b :: bs).zip (m :: ms)).map pdiff) with
        | none =>
          exfalso
          have hzc : ((b :: bs).zip (m :: ms)).map pdiff
              = pdiff (b, m) :: ((bs.zip ms).map pdiff) := by
            simp [List.zip_cons_cons]
          rw [hzc] at hw
          exact winner_none_ne_none _ _ hw
        | some p =>
          rcases p with ⟨i, w⟩
          rw [hw] at hmatch
          obtain ⟨hlen, hres⟩ := hmatch
          obtain ⟨hlen2, hwget, _, hwstrict, hwall⟩ := winner_spec _ none i w hw
          have hmem := List.get_mem ((b :: bs).zip (m :: ms)) i hlen
          obtain ⟨hbs, hms⟩ := hparse _ hmem
          obtain ⟨bi, hbi⟩ := Option.isSome_iff_exists.mp hbs
          obtain ⟨mi, hmi⟩ := Option.isSome_iff_exists.mp hms
          have hzi := zip_get_eq (b :: bs) (m :: ms) i hlen
          have hbi2 : ((b :: bs).get ⟨i, zip_len_left _ _ i hlen⟩).value = some bi := by
            rw [hzi] at hbi
            exact hbi
          have hmi2 : ((m :: ms).get ⟨i, zip_len_right _ _ i hlen⟩).value = some mi := by
            rw [hzi] at hmi
            exact hmi
          have hwv : w = |bi - mi| := by
            rw [hwget, map_pdiff_get _ _ i hlen, pdiff_at _ _ i hlen bi mi hbi2 hmi2,
              ratAbs_eq_abs]
          refine ⟨i, hlen, bi, mi, hbi2, hmi2, ?_, ?_, ?_, ?_, ?_, ?_⟩
          · have hth : a.max_v_diff = some w := by rw [hres]
            rw [hwv] at hth
            exact hth
          · have hth : a.max_diff_time
                = (((b :: bs).zip (m :: ms)).get ⟨i, hlen⟩).1.time := by rw [hres]
            rw [hzi] at hth
            exact hth
          · have hth : a.max_v_bat
                = (((b :: bs).zip (m :: ms)).get ⟨i, hlen⟩).1.value := by rw [hres]
            rw [hbi] at hth
            exact hth
          · have hth : a.max_v_bat_time
                = (((b :: bs).zip (m :: ms)).get ⟨i, hlen⟩).1.time := by rw [hres]
            rw [hzi] at hth
            exact hth
          · intro j hj bj mj hbj hmj
            have hd : pdiff (((b :: bs).zip (m :: ms)).get ⟨j, hj⟩) = |bj - mj| := by
              rw [pdiff_at _ _ j hj bj mj hbj hmj, ratAbs_eq_abs]
            have := hwall j (by simpa using hj)
            rw [map_pdiff_get _ _ j hj, hd, hwv] at this
            exact this
          · intro j hj hji bj mj hbj hmj
            have hd : pdiff (((b :: bs).zip (m :: ms)).get ⟨j, hj⟩) = |bj - mj| := by
              rw [pdiff_at _ _ j hj bj mj hbj hmj, ratAbs_eq_abs]
            have := hwstrict j (by simpa using hj) hji
            rw [map_pdiff_get _ _ j hj, hd, hwv] at this
            exact this

/-- C5 (amended): the two assignments sit inside the single conjunctive
guard `if v_bat_records and vbms_records:` (line 74), so the readings
are NOT taken whenever the corresponding series alone is non-empty.
When both voltage series are non-empty (and the site's analysis
succeeds), the current battery-voltage reading is the last entry of the
battery-voltage series and the current BMS-voltage reading is the last
entry of the BMS-voltage series, each taken from its own series, with
the shared timestamp from the battery-voltage side; but if either
series is empty, both readings and the timestamp stay `None`, even if
the other series is non-empty. -/
theorem C5_current_voltages (si : SiteInfo) (a : SiteAnalysis) (vb vm : List TRec)
    (ha : analyzeSite si = some a)
    (hvb : recordsOf si "V-bat" = some vb)
    (hvm : recordsOf si "BMS Voltage" = some vm) :
    (∀ (hbne : vb ≠ []) (hmne : vm ≠ []),
      ∃ cb cm,
        (vb.getLast hbne).value = some cb ∧
        (vm.getLast hmne).value = some cm ∧
        a.current_v_bat = some cb ∧
        a.current_vbms = some cm ∧
        a.current_voltage_time = (vb.getLast hbne).time) ∧
    (vb = [] ∨ vm = [] →
      a.current_v_bat = none ∧ a.current_vbms = none ∧
      a.current_voltage_time = none) := by
  obtain ⟨sid, sn, ty, d, soc, vb0, vm0, a1, h1, h2, h3, h4, h5, h6, h7, h8, h9⟩ :=
    analyzeSite_elim si a ha
  rw [recordsOf_eq si d "V-bat" h4, h6] at hvb
  rw [recordsOf_eq si d "BMS Voltage" h4, h7] at hvm
  have hb0 : vb0 = vb := Option.some.inj hvb
  have hm0 : vm0 = vm := Option.some.inj hvm
  subst hb0
  subst hm0
  constructor
  · intro hbne hmne
    cases vb0 with
    | nil => exact absurd rfl hbne
    | cons b bs =>
      cases vm0 with
      | nil => exact absurd rfl hmne
      | cons m ms =>
        obtain ⟨cb, cm, ct, hcb, hcm, hctv, hfold⟩ :=
          analyzeVolt_cons_elim b m bs ms a1 a h9
        obtain ⟨_, _, _, _, _, _, _, p8, p9, p10, _⟩ := vDiffFold_preserves _ _ _ hfold
        refine ⟨cb, cm, hcb, hcm, ?_, ?_, ?_⟩
        · rw [p8]
        · rw [p9]
        · rw [p10, hctv]
  · intro hemp
    have ha1 : a = a1 := by
      rcases hemp with h | h
      · rw [h, analyzeVolt_nil_left vm0 a1] at h9
        exact (Option.some.inj h9).symm
      · rw [h, analyzeVolt_nil_right vb0 a1] at h9
        exact (Option.some.inj h9).symm
    obtain ⟨_, _, _, _, _, _, _, p8, p9, p10, _⟩ := analyzeSoc_preserves soc _ a1 h8
    rw [ha1, p8, p9, p10]
    exact ⟨rfl, rfl, rfl⟩

/-- C8: `analyze` never raises — it is the per-site `try/except` fold:
its result is exactly the input filtered through `_analyze_site`, so a
site whose analysis fails is dropped, every succeeding site appears with
its own analysis unaffected, and the output keys are a subset of the
input keys. -/
theorem C8_analyze_isolation (fetched : List (String × SiteInfo))
    (h : (fetched.map Prod.fst).Nodup) :
    analyze fetched
      = fetched.filterMap (fun p => (analyzeSite p.2).map (fun b => (p.1, b))) ∧
    (∀ q ∈ analyze fetched, q.1 ∈ fetched.map Prod.fst) ∧
    (∀ p ∈ fetched, analyzeSite p.2 = none → ∀ q ∈ analyze fetched, q.1 ≠ p.1) ∧
    (∀ p ∈ fetched, ∀ b, analyzeSite p.2 = some b → (p.1, b) ∈ analyze fetched) := by
  have heq := foldl_insertOpt_eq_filterMap Prod.fst (fun p => analyzeSite p.2)
    analyzeStep analyzeStep_eq fetched [] (by simp) h
  have hmain : analyze fetched
      = fetched.filterMap (fun p => (analyzeSite p.2).map (fun b => (p.1, b))) := by
    unfold analyze
    simpa using heq
  refine ⟨hmain, ?_, ?_, ?_⟩
  · intro q hq
    rw [hmain] at hq
    obtain ⟨p, hp, hf⟩ := List.mem_filterMap.mp hq
    cases hs : analyzeSite p.2 with
    | none => rw [hs] at hf; cases hf
    | some b =>
      rw [hs] at hf
      have hq2 : (p.1, b) = q := Option.some.inj hf
      rw [← hq2]
      exact List.mem_map_of_mem Prod.fst hp
  · intro p hp hnone q hq hcontra
    rw [hmain] at hq
    obtain ⟨x, hx, hf⟩ := List.mem_filterMap.mp hq
    cases hs : analyzeSite x.2 with
    | none => rw [hs] at hf; cases hf
    | some b =>
      rw [hs] at hf
      have hq2 : (x.1, b) = q := Option.some.inj hf
      have hx1 : x.1 = p.1 := by rw [← hq2] at hcontra; exact hcontra
      have hxp : x = p := List.inj_on_of_nodup_map h hx hp hx1
      rw [hxp] at hs
      rw [hs] at hnone
      cases hnone
  · intro p hp b hb
    rw [hmain]
    refine List.mem_filterMap.mpr ⟨p, hp, ?_⟩
    rw [hb]
    rfl

/-- The spec's worked state-of-charge example:
series `[(10,"09:00"), (5,"09:05"), (5,"09:10")]`. -/
def siSocW : SiteInfo :=
  { site_id := some "1", inverter_sn := some "SN", inverter_type := some "M",
    data := some
      [⟨some "SOC", some [⟨some 10, some "09:00"⟩, ⟨some 5, some "09:05"⟩,
        ⟨some 5, some "09:10"⟩]⟩,
       ⟨some "V-bat", some []⟩, ⟨some "BMS Voltage", some []⟩],
    yesterday_max_soc := none }

def rsSocW : List TRec :=
  [⟨some 10, some "09:00"⟩, ⟨some 5, some "09:05"⟩, ⟨some 5, some "09:10"⟩]

def aSocW : SiteAnalysis :=
  { site_id := "1", inverter_sn := "SN", inverter_type := "M",
    lowest_soc := .val 5, lowest_soc_time := some "09:05",
    current_soc := .val 5, current_soc_time := some "09:10",
    max_v_diff := none, max_diff_time := none,
    max_v_bat := none, max_v_bat_time := none,
    current_v_bat := none, current_vbms := none, current_voltage_time := none,
    yesterday_max_soc := none }

/-- Witness for C3 at the spec's worked example: lowest 5 at 09:05
(first-occurrence tie-break), current 5 at 09:10 (last entry). -/
theorem C3_witness :
    (rsSocW = [] → aSocW.lowest_soc = SocVal.offline ∧ aSocW.lowest_soc_time = none ∧
      aSocW.current_soc = SocVal.offline ∧ aSocW.current_soc_time = none) ∧
    (∀ hne : rsSocW ≠ [],
      ∃ (i : Fin rsSocW.length) (q : Rat),
        (rsSocW.get i).value = some q ∧
        aSocW.lowest_soc = SocVal.val q ∧
        aSocW.lowest_soc_time = (rsSocW.get i).time ∧
        (∀ j : Fin rsSocW.length, ∀ qj, (rsSocW.get j).value = some qj → q ≤ qj) ∧
        (∀ j : Fin rsSocW.length, j.1 < i.1 → ∀ qj,
          (rsSocW.get j).value = some qj → q < qj) ∧
        (∃ cq, (rsSocW.getLast hne).value = some cq ∧
          aSocW.current_soc = SocVal.val cq ∧
          aSocW.current_soc_time = (rsSocW.getLast hne).time)) :=
  C3_soc_extrema siSocW aSocW rsSocW (by decide) (by decide)

/-- The spec's worked voltage example: battery series of length 5,
BMS series of length 3 — only three pairs are considered. -/
def vbW : List TRec :=
  [⟨some 50, some "t0"⟩, ⟨some 53, some "t1"⟩, ⟨some 53, some "t2"⟩,
   ⟨some 99, some "t3"⟩, ⟨some 1, some "t4"⟩]

def vmW : List TRec :=
  [⟨some 50, some "u0"⟩, ⟨some 50, some "u1"⟩, ⟨some 50, some "u2"⟩]

def siVoltW : SiteInfo :=
  { site_id := some "1", inverter_sn := some "SN", inverter_type := some "M",
    data := some
      [⟨some "SOC", some []⟩, ⟨some "V-bat", some vbW⟩,
       ⟨some "BMS Voltage", some vmW⟩],
    yesterday_max_soc := some 100 }

def aVoltW : SiteAnalysis :=
  { site_id := "1", inverter_sn := "SN", inverter_type := "M",
    lowest_soc := .offline, lowest_soc_time := none,
    current_soc := .offline, current_soc_time := none,
    max_v_diff := some 3, max_diff_time := some "t1",
    max_v_bat := some 53, max_v_bat_time := some "t1",
    current_v_bat := some 1, current_vbms := some 50,
    current_voltage_time := some "t4",
    yesterday_max_soc := some 100 }

set_option maxHeartbeats 2000000 in
/-- Witness for C4 at the spec's worked example: lengths 5 and 3, three
pairs considered, maximum differential 3 first reached at index 1. -/
theorem C4_witness :
    ((vbW = [] ∨ vmW = []) → aVoltW.max_v_diff = none ∧ aVoltW.max_diff_time = none ∧
      aVoltW.max_v_bat = none ∧ aVoltW.max_v_bat_time = none) ∧
    (vbW ≠ [] → vmW ≠ [] →
      (vbW.zip vmW).length = min vbW.length vmW.length ∧
      ∃ (i : Nat) (hi : i < (vbW.zip vmW).length) (bi mi : Rat),
        (vbW.get ⟨i, zip_len_left vbW vmW i hi⟩).value = some bi ∧
        (vmW.get ⟨i, zip_len_right vbW vmW i hi⟩).value = some mi ∧
        aVoltW.max_v_diff = some |bi - mi| ∧
        aVoltW.max_diff_time = (vbW.get ⟨i, zip_len_left vbW vmW i hi⟩).time ∧
        aVoltW.max_v_bat = some bi ∧
        aVoltW.max_v_bat_time = (vbW.get ⟨i, zip_len_left vbW vmW i hi⟩).time ∧
        (∀ (j : Nat) (hj : j < (vbW.zip vmW).length) (bj mj : Rat),
          (vbW.get ⟨j, zip_len_left vbW vmW j hj⟩).value = some bj →
          (vmW.get ⟨j, zip_len_right vbW vmW j hj⟩).value = some mj →
          |bj - mj| ≤ |bi - mi|) ∧
        (∀ (j : Nat) (hj : j < (vbW.zip vmW).length), j < i →
          ∀ (bj mj : Rat),
          (vbW.get ⟨j, zip_len_left vbW vmW j hj⟩).value = some bj →
          (vmW.get ⟨j, zip_len_right vbW vmW j hj⟩).value = some mj →
          |bj - mj| < |bi - mi|)) :=
  C4_voltage_differential siVoltW aVoltW vbW vmW
    (by norm_num +decide [analyzeSite, siVoltW, nextRecords, analyzeSoc, analyzeVolt,
      vDiffFold, minSoc, socFields, initAnalysis, improves, ratAbs, vbW, vmW, aVoltW])
    (by decide) (by decide)

set_option maxHeartbeats 2000000 in
/-- Witness for C5 at the spec's worked example: current readings are
the last entries of each series independently (1 from the battery side,
50 from the BMS side), not the max-differential pair. -/
theorem C5_witness :
    (∀ (hbne : vbW ≠ []) (hmne : vmW ≠ []),
      ∃ cb cm,
        (vbW.getLast hbne).value = some cb ∧
        (vmW.getLast hmne).value = some cm ∧
        aVoltW.current_v_bat = some cb ∧
        aVoltW.current_vbms = some cm ∧
        aVoltW.current_voltage_time = (vbW.getLast hbne).time) ∧
    (vbW = [] ∨ vmW = [] →
      aVoltW.current_v_bat = none ∧ aVoltW.current_vbms = none ∧
      aVoltW.current_voltage_time = none) :=
  C5_current_voltages siVoltW aVoltW vbW vmW
    (by norm_num +decide [analyzeSite, siVoltW, nextRecords, analyzeSoc, analyzeVolt,
      vDiffFold, minSoc, socFields, initAnalysis, improves, ratAbs, vbW, vmW, aVoltW])
    (by decide) (by decide)

/-- The falsifying input for C5 as frozen: the battery-voltage series
has one entry with a parsable value and a timestamp, the BMS-voltage
series is empty. -/
def siC5 : SiteInfo :=
  { site_id := some "s1", inverter_sn := some "sn1", inverter_type := some "M",
    data := some
      [ { label := some "SOC", records := some [] },
        { label := some "V-bat",
          records := some [{ value := some 48, time := some "t0" }] },
        { label := some "BMS Voltage", records := some [] } ],
    yesterday_max_soc := none }

/-- C5 counterexample: the claim reads each current reading off its own
series "whenever the corresponding series has at least one entry", but
line 74 of `analyzer.py` guards both assignments with the conjunction
`if v_bat_records and vbms_records:`.  Here the battery-voltage series
is non-empty with a parsable last value, the BMS-voltage series is
empty, the analysis succeeds — and `current_v_bat` stays `None` rather
than becoming the last battery entry's value. -/
theorem C5_counterexample :
    recordsOf siC5 "V-bat" = some [{ value := some 48, time := some "t0" }] ∧
    recordsOf siC5 "BMS Voltage" = some [] ∧
    analyzeSite siC5 = some (initAnalysis "s1" "sn1" "M" none) ∧
    (initAnalysis "s1" "sn1" "M" none).current_v_bat = none ∧
    (initAnalysis "s1" "sn1" "M" none).current_vbms = none ∧
    (initAnalysis "s1" "sn1" "M" none).current_voltage_time = none := by
  refine ⟨rfl, rfl, rfl, rfl, rfl, rfl⟩

def siBadW : SiteInfo := {}

/-- Witness for C8: one well-formed site and one empty bundle — the
malformed site is dropped, the good one analyzed. -/
theorem C8_witness :
    analyze [("good", siSocW), ("bad", siBadW)]
      = [("good", siSocW), ("bad", siBadW)].filterMap
          (fun p => (analyzeSite p.2).map (fun b => (p.1, b))) ∧
    (∀ q ∈ analyze [("good", siSocW), ("bad", siBadW)],
      q.1 ∈ [("good", siSocW), ("bad", siBadW)].map Prod.fst) ∧
    (∀ p ∈ [("good", siSocW), ("bad", siBadW)], analyzeSite p.2 = none →
      ∀ q ∈ analyze [("good", siSocW), ("bad", siBadW)], q.1 ≠ p.1) ∧
    (∀ p ∈ [("good", siSocW), ("bad", siBadW)], ∀ b, analyzeSite p.2 = some b →
      (p.1, b) ∈ analyze [("good", siSocW), ("bad", siBadW)]) :=
  C8_analyze_isolation [("good", siSocW), ("bad", siBadW)] (by decide)

/-! ## Telemetry client (`src/api/sunsynk.py`) and fetch pipeline
(`src/core/fetcher.py`) -/

/-- Observable network-side events, in program order: one rate-limiter
acquisition per outbound attempt, the HTTP requests themselves, and the
retry sleeps. -/
inductive Ev where
  | getToken
  | acquire
  | plantsRequest (page attempt : Nat)
  | sleep (secs : Nat)
  | invertersRequest (siteId : String)
  | fetchSite (name : String)
deriving Repr, DecidableEq

/-- One `data.infos` entry of a plants page. -/
structure Plant where
  name : String
  id : String
deriving Repr, DecidableEq

/-- The retry loop of `get_plants` (lines 60-75): each attempt first
acquires the shared rate-limit permit, a non-200/exception attempt
(oracle `none`) sleeps `(attempt + 1) * 2` seconds unless it was the
last attempt; the first 200 response (oracle `some body`, where the body
is `some plants` when well-formed with `data.infos` and `none`
otherwise) is returned; exhaustion returns `None`. -/
def getPlantsGo (maxRetries page : Nat) (oracle : Nat → Option (Option (List Plant))) :
    Nat → Nat → Option (Option (List Plant)) × List Ev
  | _, 0 => (none, [])
  | attempt, fuel + 1 =>
    match oracle attempt with
    | some r => (some r, [Ev.acquire, Ev.plantsRequest page attempt])
    | none =>
      if attempt < maxRetries - 1 then
        ((getPlantsGo maxRetries page oracle (attempt + 1) fuel).1,
         Ev.acquire :: Ev.plantsRequest page attempt :: Ev.sleep ((attempt + 1) * 2) ::
           (getPlantsGo maxRetries page oracle (attempt + 1) fuel).2)
      else
        ((getPlantsGo maxRetries page oracle (attempt + 1) fuel).1,
         Ev.acquire :: Ev.plantsRequest page attempt ::
           (getPlantsGo maxRetries page oracle (attempt + 1) fuel).2)

/-- `SunSynkAPI.get_plants(page)`: `for attempt in range(max_retries)`. -/
def get_plants (maxRetries page : Nat) (oracle : Nat → Option (Option (List Plant))) :
    Option (Option (List Plant)) × List Ev :=
  getPlantsGo maxRetries page oracle 0 maxRetries

/-- Number of attempts the retry loop executes starting at `attempt`
with `fuel` loop iterations left. -/
def attemptsMadeFrom (oracle : Nat → Option (Option (List Plant))) : Nat → Nat → Nat
  | _, 0 => 0
  | attempt, fuel + 1 =>
    match oracle attempt with
    | some _ => 1
    | none => attemptsMadeFrom oracle (attempt + 1) fuel + 1

def attemptsMade (maxRetries : Nat) (oracle : Nat → Option (Option (List Plant))) : Nat :=
  attemptsMadeFrom oracle 0 maxRetries

/-- The events one attempt of the retry loop emits: a rate-limit
acquisition, the page request, and — after a failed non-final attempt —
the `(attempt + 1) * 2`-second sleep. -/
def attemptTrace (maxRetries page : Nat) (oracle : Nat → Option (Option (List Plant)))
    (i : Nat) : List Ev :=
  Ev.acquire :: Ev.plantsRequest page i ::
    (if (oracle i).isNone ∧ i < maxRetries - 1 then [Ev.sleep ((i + 1) * 2)] else [])

def isPlantsReq : Ev → Bool
  | Ev.plantsRequest _ _ => true
  | _ => false

/-- One dict write of the discovery assembly loop (lines 117-127): the
site keeps its id and gets its roster, an ultimately failed roster call
(`None`) degrading to the empty mapping. -/
def sitePlantStep (inv : String → Option (List (String × Option String)))
    (acc : List (String × SiteData)) (p : Plant) : List (String × SiteData) :=
  dictInsert acc p.name { id := p.id, inverters := some ((inv p.id).getD []) }

/-- One page of the discovery assembly loop (lines 115-127): a failed or
malformed page contributes nothing. -/
def sitePageStep (inv : String → Option (List (String × Option String)))
    (acc : List (String × SiteData)) (po : Option (Option (List Plant))) :
    List (String × SiteData) :=
  match po with
  | some (some plants) => plants.foldl (sitePlantStep inv) acc
  | _ => acc

/-- The assembly loop of `get_all_sites` over the gathered page results
(`inv` is the outcome of `get_site_inverters` per site id: `none` for an
exception, `some` roster otherwise). -/
def assembleSites (pages : List (Option (Option (List Plant))))
    (inv : String → Option (List (String × Option String))) : List (String × SiteData) :=
  pages.foldl (sitePageStep inv) []

/-- The plants contributed by the successful, well-formed pages, in
order. -/
def plantsOf : List (Option (Option (List Plant))) → List Plant
  | [] => []
  | some (some ps) :: rest => ps ++ plantsOf rest
  | _ :: rest => plantsOf rest

/-- `SunSynkAPI.get_all_sites`: fourteen concurrently gathered
`get_plants` pages (pages 1..14), then the per-plant roster calls. -/
def get_all_sites (maxRetries : Nat)
    (pageOracle : Nat → Nat → Option (Option (List Plant)))
    (inv : String → Option (List (String × Option String))) : List (String × SiteData) :=
  assembleSites ((List.range 14).map
    (fun i => (get_plants maxRetries (i + 1) (pageOracle (i + 1))).1)) inv

/-- One iteration of the `fetch_data` site loop (lines 172-189): only
`status = 'valid'` sites are attempted; the per-site fetch oracle yields
`none` on a failed or falsy fetch (logged and skipped) and `some` bundle
on success. -/
def fetchStep (fetch : String → SiteValidation → Option α)
    (acc : List (String × α) × List Ev) (p : String × SiteValidation) :
    List (String × α) × List Ev :=
  if p.2.status == "valid" then
    match fetch p.1 p.2 with
    | some d => (dictInsert acc.1 p.1 d, acc.2 ++ [Ev.fetchSite p.1])
    | none => (acc.1, acc.2 ++ [Ev.fetchSite p.1])
  else acc

/-- `DataFetcher.fetch_data` from the authentication step on (the
validator is already initialised and its validated mapping given): a
missing token aborts with an empty result and no further API calls. -/
def fetch_data (token : Option String) (validated : List (String × SiteValidation))
    (fetch : String → SiteValidation → Option α) : List (String × α) × List Ev :=
  match token with
  | none => ([], [Ev.getToken])
  | some _ => validated.foldl (fetchStep fetch) ([], [Ev.getToken])

/-- `DataFetcher.fetch_all_sites`: authenticate, then discover.
The event list concatenates the page traces (the gather interleaving is
abstracted) and the roster calls. -/
def fetch_all_sites (token : Option String) (maxRetries : Nat)
    (pageOracle : Nat → Nat → Option (Option (List Plant)))
    (inv : String → Option (List (String × Option String))) :
    List (String × SiteData) × List Ev :=
  match token with
  | none => ([], [Ev.getToken])
  | some _ =>
    (get_all_sites maxRetries pageOracle inv,
     Ev.getToken ::
       (((List.range 14).flatMap
          (fun i => (get_plants maxRetries (i + 1) (pageOracle (i + 1))).2))
        ++ (plantsOf ((List.range 14).map
              (fun i => (get_plants maxRetries (i + 1) (pageOracle (i + 1))).1))).flatMap
             (fun p => [Ev.acquire, Ev.invertersRequest p.id])))

theorem getPlantsGo_zero (maxRetries page : Nat)
    (oracle : Nat → Option (Option (List Plant))) (attempt : Nat) :
    getPlantsGo maxRetries page oracle attempt 0 = (none, []) := rfl

theorem getPlantsGo_succ_some (maxRetries page : Nat)
    (oracle : Nat → Option (Option (List Plant))) (attempt fuel : Nat)
    (r : Option (List Plant)) (ho : oracle attempt = some r) :
    getPlantsGo maxRetries page oracle attempt (fuel + 1)
      = (some r, [Ev.acquire, Ev.plantsRequest page attempt]) := by
  unfold getPlantsGo
  rw [ho]

theorem getPlantsGo_succ_none (maxRetries page : Nat)
    (oracle : Nat → Option (Option (List Plant))) (attempt fuel : Nat)
    (ho : oracle attempt = none) :
    getPlantsGo maxRetries page oracle attempt (fuel + 1)
      = (if attempt < maxRetries - 1 then
          ((getPlantsGo maxRetries page oracle (attempt + 1) fuel).1,
           Ev.acquire :: Ev.plantsRequest page attempt :: Ev.sleep ((attempt + 1) * 2) ::
             (getPlantsGo maxRetries page oracle (attempt + 1) fuel).2)
        else
          ((getPlantsGo maxRetries page oracle (attempt + 1) fuel).1,
           Ev.acquire :: Ev.plantsRequest page attempt ::
             (getPlantsGo maxRetries page oracle (attempt + 1) fuel).2)) := by
  conv_lhs => rw [getPlantsGo]
  rw [ho]

theorem attemptsMadeFrom_succ_some (oracle : Nat → Option (Option (List Plant)))
    (attempt fuel : Nat) (r : Option (List Plant)) (ho : oracle attempt = some r) :
    attemptsMadeFrom oracle attempt (fuel + 1) = 1 := by
  conv_lhs => rw [attemptsMadeFrom]
  rw [ho]

theorem attemptsMadeFrom_succ_none (oracle : Nat → Option (Option (List Plant)))
    (attempt fuel : Nat) (ho : oracle attempt = none) :
    attemptsMadeFrom oracle attempt (fuel + 1)
      = attemptsMadeFrom oracle (attempt + 1) fuel + 1 := by
  conv_lhs => rw [attemptsMadeFrom]
  rw [ho]

theorem attemptsMadeFrom_le (oracle : Nat → Option (Option (List Plant))) :
    ∀ (fuel a : Nat), attemptsMadeFrom oracle a fuel ≤ fuel
  | 0, _ => le_refl 0
  | fuel + 1, a => by
    cases ho : oracle a with
    | some r =>
      rw [attemptsMadeFrom_succ_some oracle a fuel r ho]
      omega
    | none =>
      rw [attemptsMadeFrom_succ_none oracle a fuel ho]
      have := attemptsMadeFrom_le oracle fuel (a + 1)
      omega

/-- Closed form of the retry loop's event trace: one `attemptTrace`
segment per executed attempt, in order. -/
theorem getPlantsGo_trace (maxRetries page : Nat)
    (oracle : Nat → Option (Option (List Plant))) :
    ∀ (fuel a : Nat),
      (getPlantsGo maxRetries page oracle a fuel).2
        = ((List.range (attemptsMadeFrom oracle a fuel)).map (a + ·)).flatMap
            (attemptTrace maxRetries page oracle)
  | 0, a => rfl
  | fuel + 1, a => by
    cases ho : oracle a with
    | some r =>
      rw [getPlantsGo_succ_some maxRetries page oracle a fuel r ho,
        attemptsMadeFrom_succ_some oracle a fuel r ho]
      have h3 : (List.range 1).map (a + ·) = [a] := by
        rw [List.range_succ, List.range_zero]
        simp
      rw [h3]
      simp [attemptTrace, ho]
    | none =>
      rw [getPlantsGo_succ_none maxRetries page oracle a fuel ho,
        attemptsMadeFrom_succ_none oracle a fuel ho]
      have hmap : ((List.range (attemptsMadeFrom oracle (a + 1) fuel + 1)).map (a + ·))
          = a :: ((List.range (attemptsMadeFrom oracle (a + 1) fuel)).map ((a + 1) + ·)) := by
        rw [List.range_succ_eq_map, List.map_cons, List.map_map]
        have hfun : ((fun x => a + x) ∘ Nat.succ) = (fun x => (a + 1) + x) := by
          funext x
          simp only [Function.comp_apply]
          omega
        rw [hfun]
        simp
      rw [hmap, List.flatMap_cons, getPlantsGo_trace maxRetries page oracle fuel (a + 1)]
      by_cases hc : a < maxRetries - 1
      · rw [if_pos hc]
        have hT : attemptTrace maxRetries page oracle a
            = [Ev.acquire, Ev.plantsRequest page a, Ev.sleep ((a + 1) * 2)] := by
          unfold attemptTrace
          rw [if_pos ⟨by simp [ho], hc⟩]
        rw [hT]
        rfl
      · rw [if_neg hc]
        have hT : attemptTrace maxRetries page oracle a
            = [Ev.acquire, Ev.plantsRequest page a] := by
          unfold attemptTrace
          rw [if_neg (fun hand => hc hand.2)]
        rw [hT]
        rfl

/-- The retry loop returns `None` exactly when every attempt in its
window fails. -/
theorem getPlantsGo_res_none (maxRetries page : Nat)
    (oracle : Nat → Option (Option (List Plant))) :
    ∀ (fuel a : Nat),
      ((getPlantsGo maxRetries page oracle a fuel).1 = none
        ↔ ∀ i, a ≤ i → i < a + fuel → oracle i = none)
  | 0, a => by
    constructor
    · intro _ i h1 h2
      omega
    · intro _
      rfl
  | fuel + 1, a => by
    cases ho : oracle a with
    | some r =>
      rw [getPlantsGo_succ_some maxRetries page oracle a fuel r ho]
      constructor
      · intro hcontra
        cases hcontra
      · intro hall
        have := hall a (le_refl a) (by omega)
        rw [this] at ho
        cases ho
    | none =>
      rw [getPlantsGo_succ_none maxRetries page oracle a fuel ho]
      have h1 : ((if a < maxRetries - 1 then
            ((getPlantsGo maxRetries page oracle (a + 1) fuel).1,
             Ev.acquire :: Ev.plantsRequest page a :: Ev.sleep ((a + 1) * 2) ::
               (getPlantsGo maxRetries page oracle (a + 1) fuel).2)
          else
            ((getPlantsGo maxRetries page oracle (a + 1) fuel).1,
             Ev.acquire :: Ev.plantsRequest page a ::
               (getPlantsGo maxRetries page oracle (a + 1) fuel).2)).1)
          = (getPlantsGo maxRetries page oracle (a + 1) fuel).1 := by
        split <;> rfl
      rw [h1, getPlantsGo_res_none maxRetries page oracle fuel (a + 1)]
      constructor
      · intro hall i hge hlt
        rcases Nat.eq_or_lt_of_le hge with rfl | hgt
        · exact ho
        · exact hall i hgt (by omega)
      · intro hall i hge hlt
        exact hall i (by omega) (by omega)

theorem countP_attemptTrace (maxRetries page : Nat)
    (oracle : Nat → Option (Option (List Plant))) (i : Nat) :
    (attemptTrace maxRetries page oracle i).countP isPlantsReq = 1 := by
  unfold attemptTrace
  split <;> rfl

theorem countP_flatMap_attemptTrace (maxRetries page : Nat)
    (oracle : Nat → Option (Option (List Plant))) :
    ∀ l : List Nat,
      (l.flatMap (attemptTrace maxRetries page oracle)).countP isPlantsReq = l.length
  | [] => rfl
  | i :: t => by
    rw [List.flatMap_cons, List.countP_append, countP_attemptTrace,
      countP_flatMap_attemptTrace maxRetries page oracle t, List.length_cons]
    omega

/-- C6: the page-fetch retry loop executes at most `max_retries`
attempts; its event trace is exactly one segment per attempt, each
starting with a rate-limit acquisition followed by the request, a
failed non-final attempt then sleeping `(attempt + 1) * 2` seconds; the
number of requests equals the number of attempts; after exhausting all
attempts it returns an absence instead of raising; and in the page
assembly a failed page contributes zero site entries while the other
pages contribute theirs unchanged. -/
theorem C6_get_plants_retry (maxRetries page : Nat)
    (oracle : Nat → Option (Option (List Plant))) :
    attemptsMade maxRetries oracle ≤ maxRetries ∧
    ((get_plants maxRetries page oracle).2
      = (List.range (attemptsMade maxRetries oracle)).flatMap
          (attemptTrace maxRetries page oracle)) ∧
    ((get_plants maxRetries page oracle).2.countP isPlantsReq
      = attemptsMade maxRetries oracle) ∧
    ((get_plants maxRetries page oracle).1 = none ↔ ∀ i < maxRetries, oracle i = none) ∧
    (∀ (l₁ l₂ : List (Option (Option (List Plant))))
       (inv : String → Option (List (String × Option String))),
      assembleSites (l₁ ++ none :: l₂) inv = assembleSites (l₁ ++ l₂) inv) := by
  have hid : (List.range (attemptsMade maxRetries oracle)).map (0 + ·)
      = List.range (attemptsMade maxRetries oracle) := by
    have hfun : (fun x => 0 + x) = (id : Nat → Nat) := by
      funext x
      simp
    rw [hfun, List.map_id]
  have htrace : (get_plants maxRetries page oracle).2
      = (List.range (attemptsMade maxRetries oracle)).flatMap
          (attemptTrace maxRetries page oracle) := by
    unfold get_plants attemptsMade
    rw [getPlantsGo_trace maxRetries page oracle maxRetries 0]
    rw [show attemptsMade maxRetries oracle = attemptsMadeFrom oracle 0 maxRetries from rfl]
      at hid
    rw [hid]
  refine ⟨attemptsMadeFrom_le oracle maxRetries 0, htrace, ?_, ?_, ?_⟩
  · rw [htrace, countP_flatMap_attemptTrace, List.length_range]
  · unfold get_plants
    rw [getPlantsGo_res_none maxRetries page oracle maxRetries 0]
    constructor
    · intro hall i hlt
      exact hall i (by omega) (by omega)
    · intro hall i _ hlt
      exact hall i (by omega)
  · intro l₁ l₂ inv
    unfold assembleSites
    rw [List.foldl_append, List.foldl_append, List.foldl_cons]
    rfl

def oracleW : Nat → Option (Option (List Plant)) :=
  fun i => if i = 2 then some (some []) else none

/-- Witness for C6 with three allowed attempts whose first two fail:
the trace shows acquire-request-sleep, acquire-request-sleep,
acquire-request, and the well-formed empty page is returned. -/
theorem C6_witness :
    attemptsMade 3 oracleW ≤ 3 ∧
    ((get_plants 3 1 oracleW).2
      = (List.range (attemptsMade 3 oracleW)).flatMap (attemptTrace 3 1 oracleW)) ∧
    ((get_plants 3 1 oracleW).2.countP isPlantsReq = attemptsMade 3 oracleW) ∧
    ((get_plants 3 1 oracleW).1 = none ↔ ∀ i < 3, oracleW i = none) ∧
    (∀ (l₁ l₂ : List (Option (Option (List Plant))))
       (inv : String → Option (List (String × Option String))),
      assembleSites (l₁ ++ none :: l₂) inv = assembleSites (l₁ ++ l₂) inv) :=
  C6_get_plants_retry 3 1 oracleW

/-- C7: with no access token, the fetch cycle and the discovery
operation each return the empty mapping and attempt no API call beyond
the failed token request. -/
theorem C7_auth_failure {α : Type} (validated : List (String × SiteValidation))
    (fetch : String → SiteValidation → Option α) (maxRetries : Nat)
    (pageOracle : Nat → Nat → Option (Option (List Plant)))
    (inv : String → Option (List (String × Option String))) :
    fetch_data none validated fetch = (([] : List (String × α)), [Ev.getToken]) ∧
    fetch_all_sites none maxRetries pageOracle inv = ([], [Ev.getToken]) :=
  ⟨rfl, rfl⟩

/-- Witness for C7 at concrete inputs. -/
theorem C7_witness :
    fetch_data none [("A", { status := "valid" })] (fun _ _ => some 1)
      = (([] : List (String × Nat)), [Ev.getToken]) ∧
    fetch_all_sites none 3 (fun _ _ => none) (fun _ => none) = ([], [Ev.getToken]) :=
  C7_auth_failure [("A", { status := "valid" })] (fun _ _ => some 1) 3
    (fun _ _ => none) (fun _ => none)

/-- Result component of one fetch-loop iteration: non-valid sites are
not attempted, a failed attempt leaves the dict unchanged. -/
def fetchResStep (fetch : String → SiteValidation → Option α)
    (r : List (String × α)) (p : String × SiteValidation) : List (String × α) :=
  match (if p.2.status == "valid" then fetch p.1 p.2 else none) with
  | some d => dictInsert r p.1 d
  | none => r

theorem fetchResStep_eq (fetch : String → SiteValidation → Option α)
    (r : List (String × α)) (p : String × SiteValidation) :
    fetchResStep fetch r p
      = (if p.2.status == "valid" then fetch p.1 p.2 else none).elim r
          (fun d => dictInsert r p.1 d) := by
  unfold fetchResStep
  cases (if p.2.status == "valid" then fetch p.1 p.2 else none) <;> rfl

/-- The fetch loop splits into its result dict and its trace: the trace
records exactly one fetch attempt per valid site, in order. -/
theorem fetch_loop_split (fetch : String → SiteValidation → Option α) :
    ∀ (l : List (String × SiteValidation)) (acc : List (String × α) × List Ev),
      l.foldl (fetchStep fetch) acc
        = (l.foldl (fetchResStep fetch) acc.1,
           acc.2 ++ (l.filter (fun p => p.2.status == "valid")).map
             (fun p => Ev.fetchSite p.1))
  | [], acc => by simp
  | p :: t, acc => by
    rw [List.foldl_cons, List.foldl_cons, fetch_loop_split fetch t (fetchStep fetch acc p)]
    by_cases hv : (p.2.status == "valid") = true
    · cases hf : fetch p.1 p.2 with
      | some d =>
        have h1 : fetchStep fetch acc p
            = (dictInsert acc.1 p.1 d, acc.2 ++ [Ev.fetchSite p.1]) := by
          unfold fetchStep
          rw [if_pos hv, hf]
        have h2 : fetchResStep fetch acc.1 p = dictInsert acc.1 p.1 d := by
          unfold fetchResStep
          rw [if_pos hv, hf]
        have hfil : List.filter (fun q => q.2.status == "valid") (p :: t)
            = p :: List.filter (fun q => q.2.status == "valid") t :=
          List.filter_cons_of_pos hv
        rw [h1, h2, hfil, List.map_cons]
        simp
      | none =>
        have h1 : fetchStep fetch acc p = (acc.1, acc.2 ++ [Ev.fetchSite p.1]) := by
          unfold fetchStep
          rw [if_pos hv, hf]
        have h2 : fetchResStep fetch acc.1 p = acc.1 := by
          unfold fetchResStep
          rw [if_pos hv, hf]
        have hfil : List.filter (fun q => q.2.status == "valid") (p :: t)
            = p :: List.filter (fun q => q.2.status == "valid") t :=
          List.filter_cons_of_pos hv
        rw [h1, h2, hfil, List.map_cons]
        simp
    · have h1 : fetchStep fetch acc p = acc := by
        unfold fetchStep
        rw [if_neg hv]
      have h2 : fetchResStep fetch acc.1 p = acc.1 := by
        unfold fetchResStep
        rw [if_neg hv]
      have hfil : List.filter (fun q => q.2.status == "valid") (p :: t)
          = List.filter (fun q => q.2.status == "valid") t :=
        List.filter_cons_of_neg hv
      rw [h1, h2, hfil]

/-- Looking one key up in two filterMap-built dicts that agree on every
entry carrying that key gives the same answer. -/
theorem dictGet?_filterMap_congr (key : γ → String) (F G : γ → Option β) (k : String) :
    ∀ l : List γ,
      (∀ x ∈ l, key x = k → F x = G x) →
      dictGet? (l.filterMap (fun x => (F x).map (fun b => (key x, b)))) k
        = dictGet? (l.filterMap (fun x => (G x).map (fun b => (key x, b)))) k
  | [], _ => rfl
  | x :: t, hcong => by
    have IH := dictGet?_filterMap_congr key F G k t
      (fun y hy hyk => hcong y (List.mem_cons_of_mem _ hy) hyk)
    rw [List.filterMap_cons, List.filterMap_cons]
    by_cases hk : key x = k
    · have hFG : F x = G x := hcong x (List.mem_cons_self x t) hk
      rw [hFG]
      cases hG : G x with
      | none => simpa using IH
      | some b =>
        subst hk
        simp only [Option.map_some']
        rw [dictGet?_cons_self, dictGet?_cons_self]
    · cases hF : F x with
      | none =>
        cases hG : G x with
        | none => simpa using IH
        | some b =>
          simp only [Option.map_none', Option.map_some']
          rw [dictGet?_cons_ne _ _ _ _ hk]
          exact IH
      | some b =>
        cases hG : G x with
        | none =>
          simp only [Option.map_none', Option.map_some']
          rw [dictGet?_cons_ne _ _ _ _ hk]
          exact IH
        | some b2 =>
          simp only [Option.map_some']
          rw [dictGet?_cons_ne _ _ _ _ hk, dictGet?_cons_ne _ _ _ _ hk]
          exact IH

/-- C2: with a token in hand, the fetch cycle attempts telemetry for
exactly the validated sites whose status is `valid` (in order, one
attempt event each); its result is the filterMap of the successful
fetches, so a site whose fetch fails is omitted while every other valid
site's bundle is included unaffected; invalid sites never appear; and
changing the fetch outcome of one site cannot change any other site's
entry (per-site partial-failure isolation). -/
theorem C2_fetch_isolation {α : Type} (tok : String)
    (validated : List (String × SiteValidation))
    (fetch : String → SiteValidation → Option α)
    (hnodup : (validated.map Prod.fst).Nodup) :
    ((fetch_data (some tok) validated fetch).1
      = validated.filterMap (fun p =>
          (if p.2.status == "valid" then fetch p.1 p.2 else none).map
            (fun d => (p.1, d)))) ∧
    ((fetch_data (some tok) validated fetch).2
      = Ev.getToken :: (validated.filter (fun p => p.2.status == "valid")).map
          (fun p => Ev.fetchSite p.1)) ∧
    (∀ p ∈ validated, p.2.status ≠ "valid" →
      ∀ q ∈ (fetch_data (some tok) validated fetch).1, q.1 ≠ p.1) ∧
    (∀ p ∈ validated, p.2.status = "valid" → ∀ d, fetch p.1 p.2 = some d →
      (p.1, d) ∈ (fetch_data (some tok) validated fetch).1) ∧
    (∀ (g : String → SiteValidation → Option α) (s : String),
      (∀ n v, n ≠ s → fetch n v = g n v) →
      ∀ k, k ≠ s →
        dictGet? ((fetch_data (some tok) validated fetch).1) k
          = dictGet? ((fetch_data (some tok) validated g).1) k) := by
  have hsplit : ∀ (f : String → SiteValidation → Option α),
      fetch_data (some tok) validated f
        = (validated.foldl (fetchResStep f) [],
           Ev.getToken :: (validated.filter (fun p => p.2.status == "valid")).map
             (fun p => Ev.fetchSite p.1)) := by
    intro f
    show validated.foldl (fetchStep f) ([], [Ev.getToken]) = _
    rw [fetch_loop_split f validated ([], [Ev.getToken])]
    rfl
  have hres : ∀ (f : String → SiteValidation → Option α),
      (fetch_data (some tok) validated f).1
        = validated.filterMap (fun p =>
            (if p.2.status == "valid" then f p.1 p.2 else none).map
              (fun d => (p.1, d))) := by
    intro f
    rw [hsplit f]
    exact foldl_insertOpt_eq_filterMap Prod.fst
      (fun p => if p.2.status == "valid" then f p.1 p.2 else none)
      (fetchResStep f) (fetchResStep_eq f) validated [] (by simp) hnodup
  refine ⟨hres fetch, by rw [hsplit fetch], ?_, ?_, ?_⟩
  · intro p hp hinvalid q hq hcontra
    rw [hres fetch] at hq
    obtain ⟨x, hx, hf⟩ := List.mem_filterMap.mp hq
    by_cases hxv : (x.2.status == "valid") = true
    · rw [if_pos hxv] at hf
      cases hfx : fetch x.1 x.2 with
      | none =>
        rw [hfx] at hf
        cases hf
      | some d =>
        rw [hfx] at hf
        have hq2 : (x.1, d) = q := Option.some.inj hf
        have hx1 : x.1 = p.1 := by
          rw [← hq2] at hcontra
          exact hcontra
        have hxp : x = p := List.inj_on_of_nodup_map hnodup hx hp hx1
        rw [hxp] at hxv
        exact hinvalid (by simpa using hxv)
    · rw [if_neg hxv] at hf
      cases hf
  · intro p hp hvalid d hd
    rw [hres fetch]
    refine List.mem_filterMap.mpr ⟨p, hp, ?_⟩
    rw [if_pos (by simpa using hvalid), hd]
    rfl
  · intro g s hagree k hks
    rw [hres fetch, hres g]
    exact dictGet?_filterMap_congr Prod.fst
      (fun p => if p.2.status == "valid" then fetch p.1 p.2 else none)
      (fun p => if p.2.status == "valid" then g p.1 p.2 else none)
      k validated
      (fun x _ hxk => by
        show (if (x.2.status == "valid") = true then fetch x.1 x.2 else none)
            = (if (x.2.status == "valid") = true then g x.1 x.2 else none)
        rw [hagree x.1 x.2 (by rw [hxk]; exact hks)])

/-- One valid site, one invalid site, one valid site whose fetch fails. -/
def vldW : List (String × SiteValidation) :=
  [("A", { status := "valid" }), ("B", {}), ("C", { status := "valid" })]

/-- Fetch oracle for the C2 witness: succeeds only for site `A`. -/
def fetchW : String → SiteValidation → Option Nat :=
  fun n _ => if n = "A" then some 7 else none

theorem C2_witness :
    ((fetch_data (some "tok") vldW fetchW).1
      = vldW.filterMap (fun p =>
          (if p.2.status == "valid" then fetchW p.1 p.2 else none).map
            (fun d => (p.1, d)))) ∧
    ((fetch_data (some "tok") vldW fetchW).2
      = Ev.getToken :: (vldW.filter (fun p => p.2.status == "valid")).map
          (fun p => Ev.fetchSite p.1)) ∧
    (∀ p ∈ vldW, p.2.status ≠ "valid" →
      ∀ q ∈ (fetch_data (some "tok") vldW fetchW).1, q.1 ≠ p.1) ∧
    (∀ p ∈ vldW, p.2.status = "valid" → ∀ d, fetchW p.1 p.2 = some d →
      (p.1, d) ∈ (fetch_data (some "tok") vldW fetchW).1) ∧
    (∀ (g : String → SiteValidation → Option Nat) (s : String),
      (∀ n v, n ≠ s → fetchW n v = g n v) →
      ∀ k, k ≠ s →
        dictGet? ((fetch_data (some "tok") vldW fetchW).1) k
          = dictGet? ((fetch_data (some "tok") vldW g).1) k) :=
  C2_fetch_isolation "tok" vldW fetchW (by decide)

theorem assembleSites_plantsOf (inv : String → Option (List (String × Option String)))
    (pages : List (Option (Option (List Plant)))) :
    ∀ acc, pages.foldl (sitePageStep inv) acc
      = (plantsOf pages).foldl (sitePlantStep inv) acc := by
  induction pages with
  | nil => intro acc; rfl
  | cons po rest ih =>
    intro acc
    cases po with
    | none => simpa [plantsOf, sitePageStep] using ih acc
    | some oo =>
      cases oo with
      | none => simpa [plantsOf, sitePageStep] using ih acc
      | some ps =>
        simp only [List.foldl_cons, sitePageStep, plantsOf, List.foldl_append]
        exact ih _

/-- C9 counterexample: one well-formed page listing one plant, whose
roster call fails (`inv` returns `none`, as `get_site_inverters` does on
an exception).  The claim says that site then "contributes nothing" to
the assembled snapshot; in fact line 126 of `sunsynk.py`
(`inverters if inverters is not None else \x7b\x7d`) still adds the
site, with an empty roster. -/
theorem C9_counterexample :
    dictGet? (assembleSites [some (some [{ name := "SiteA", id := "id1" }])]
        (fun _ => none)) "SiteA"
      = some { id := "id1", inverters := some [] } ∧
    dictGet? (assembleSites [some (some [{ name := "SiteA", id := "id1" }])]
        (fun _ => none)) "SiteA" ≠ none := by
  constructor
  · rfl
  · simp [assembleSites, sitePageStep, sitePlantStep, dictInsert, dictGet?]

/-- C9 (amended): a roster call that ultimately fails for one site does
not abort discovery, but the site is still entered into the assembled
snapshot with an empty inverter roster (never omitted); a site whose
roster call succeeds gets its fetched roster.  Stated under the
snapshot's implicit plant-name-uniqueness invariant. -/
theorem C9_roster_failure_amended
    (pages : List (Option (Option (List Plant))))
    (inv : String → Option (List (String × Option String)))
    (hnodup : ((plantsOf pages).map Plant.name).Nodup) :
    (assembleSites pages inv
      = (plantsOf pages).map (fun p =>
          (p.name, ({ id := p.id, inverters := some ((inv p.id).getD []) } : SiteData)))) ∧
    (∀ p ∈ plantsOf pages, inv p.id = none →
      dictGet? (assembleSites pages inv) p.name
        = some { id := p.id, inverters := some [] }) ∧
    (∀ p ∈ plantsOf pages, ∀ r, inv p.id = some r →
      dictGet? (assembleSites pages inv) p.name
        = some { id := p.id, inverters := some r }) := by
  have hmap : assembleSites pages inv
      = (plantsOf pages).map (fun p =>
          (p.name, ({ id := p.id, inverters := some ((inv p.id).getD []) } : SiteData))) := by
    show pages.foldl (sitePageStep inv) [] = _
    rw [assembleSites_plantsOf inv pages []]
    exact foldl_insert_eq_map Plant.name
      (fun p => ({ id := p.id, inverters := some ((inv p.id).getD []) } : SiteData))
      (plantsOf pages) [] (fun x _ p hp => absurd hp (List.not_mem_nil p)) hnodup
  refine ⟨hmap, ?_, ?_⟩
  · intro p hp hnone
    rw [hmap]
    have := dictGet?_map_of_nodup Plant.name
      (fun p => ({ id := p.id, inverters := some ((inv p.id).getD []) } : SiteData))
      (plantsOf pages) hnodup p hp
    rw [this]
    show some ({ id := p.id, inverters := some ((inv p.id).getD []) } : SiteData) = _
    rw [hnone]
    rfl
  · intro p hp r hr
    rw [hmap]
    have := dictGet?_map_of_nodup Plant.name
      (fun p => ({ id := p.id, inverters := some ((inv p.id).getD []) } : SiteData))
      (plantsOf pages) hnodup p hp
    rw [this]
    show some ({ id := p.id, inverters := some ((inv p.id).getD []) } : SiteData) = _
    rw [hr]
    rfl

/-- Page outcomes for the C9 witness: a failed page, a well-formed page
with two plants, and a malformed page. -/
def pagesW : List (Option (Option (List Plant))) :=
  [none, some (some [{ name := "SiteA", id := "id1" }, { name := "SiteB", id := "id2" }]),
   some none]

/-- Roster oracle for the C9 witness: the call fails for `id1` and
succeeds for `id2`. -/
def invW : String → Option (List (String × Option String)) :=
  fun i => if i = "id2" then some [("SN1", some "M")] else none

theorem C9_witness :
    (assembleSites pagesW invW
      = (plantsOf pagesW).map (fun p =>
          (p.name, ({ id := p.id, inverters := some ((invW p.id).getD []) } : SiteData)))) ∧
    (∀ p ∈ plantsOf pagesW, invW p.id = none →
      dictGet? (assembleSites pagesW invW) p.name
        = some { id := p.id, inverters := some [] }) ∧
    (∀ p ∈ plantsOf pagesW, ∀ r, invW p.id = some r →
      dictGet? (assembleSites pagesW invW) p.name
        = some { id := p.id, inverters := some r }) :=
  C9_roster_failure_amended pagesW invW (by decide)
